import Mathlib

/-!
Verification of the dataset ingestion and standardization pipeline of
`app.py` (supplier/license/model/customer distribution records).

The Python source is shallowly embedded: text is `List Char`, pandas
DataFrames are ordered association lists from column name to column,
floats are the exact rationals they denote (in `gini_coefficient`, whose
claim asserts exact numeric identities, every arithmetic step is
additionally rounded to binary64 by `f64round`), and every fallible
operation returns an `Option`.  Definitions mirror the corresponding
Python functions and keep their names where Lean allows it.
-/

set_option maxRecDepth 40000

namespace App

/-- Text is modelled as a list of characters. -/
abbrev Str := List Char

/-- Characters treated as whitespace by Python `str.strip()` (ASCII subset). -/
def isSpaceChar (c : Char) : Bool :=
  c = ' ' || c = '\t' || c = '\n' || c = '\r'

/-- Python `str.lstrip()`. -/
def lstrip (s : Str) : Str := s.dropWhile isSpaceChar

/-- Python `str.rstrip()`. -/
def rstrip (s : Str) : Str := (s.reverse.dropWhile isSpaceChar).reverse

/-- Python `str.strip()`. -/
def strip (s : Str) : Str := lstrip (rstrip s)

/-- Python `str.lower()` (ASCII semantics). -/
def lowerStr (s : Str) : Str := s.map Char.toLower

/-- Python `str.splitlines()` restricted to the newline separator:
no trailing empty element when the text ends with a newline, and the
empty string yields no lines. -/
def splitlines (s : Str) : List Str :=
  if s = [] then []
  else
    let parts := s.splitOn '\n'
    if s.getLast? = some '\n' then parts.dropLast else parts

/-- Source function `normalize_smart_quotes`: curly double and single
quotes become ASCII quotes, the fullwidth comma becomes a comma. -/
def normalize_smart_quotes (s : Str) : Str :=
  s.map (fun c =>
    if c = '“' ∨ c = '”' then Char.ofNat 34
    else if c = '‘' ∨ c = '’' then Char.ofNat 39
    else if c = '，' then ',' else c)

/-- The four labels produced by the format detector. -/
inductive Fmt
  | empty
  | json
  | jsonl
  | csv_or_text
deriving DecidableEq, Repr

/-- Source function `detect_format`: strip the text; empty yields
`empty`; a leading brace or bracket yields `json`; otherwise `jsonl`
when there are at least two lines and at least two of the first ten
lines start (after trimming) with a brace; otherwise `csv_or_text`. -/
def detect_format (text : Str) : Fmt :=
  let s := strip text
  if s = [] then .empty
  else if s.head? = some '{' ∨ s.head? = some '[' then .json
  else
    let lines := splitlines s
    if 2 ≤ lines.length ∧
        2 ≤ (lines.take 10).countP (fun ln => (strip ln).head? = some '{') then
      .jsonl
    else .csv_or_text

/-- Case-insensitive test that `pre` is a prefix of `s`. -/
def startsWithCI (pre s : Str) : Bool :=
  lowerStr (s.take pre.length) = lowerStr pre

/-- Claimed preprocessing step: drop a leading case-insensitive
`Datasets:` or `Data:` tag from the text. -/
def dropDataTag (s : Str) : Str :=
  if startsWithCI (r"Datasets:").toList s then s.drop 9
  else if startsWithCI (r"Data:").toList s then s.drop 5
  else s

/-- The format detector exactly as the claim describes it: the
`Datasets:`/`Data:` tag is dropped first, and the JSONL heuristic
counts the first ten non-empty lines. -/
def detect_format_claimed (text : Str) : Fmt :=
  let s := strip (dropDataTag (strip text))
  if s = [] then .empty
  else if s.head? = some '{' ∨ s.head? = some '[' then .json
  else
    let nonEmpty := (splitlines s).filter (fun ln => ¬ strip ln = [])
    if 2 ≤ (nonEmpty.take 10).countP (fun ln => (strip ln).head? = some '{') then
      .jsonl
    else .csv_or_text

/-- The detector rules as amended: no tag is dropped, and the JSONL
heuristic looks at the first ten raw lines (blank lines included). -/
def detect_format_rules (text : Str) : Fmt :=
  match strip text with
  | [] => .empty
  | c :: rest =>
    if c = '{' ∨ c = '[' then .json
    else
      let lines := splitlines (c :: rest)
      if 2 ≤ lines.length ∧
          2 ≤ (lines.take 10).countP (fun ln => (strip ln).head? = some '{') then
        .jsonl
      else .csv_or_text

/-- Concrete input carrying a leading `Data:` tag in front of a JSON object. -/
def fmtCexA : Str :=
  ['D', 'a', 't', 'a', ':', ' ', '{', 'x', '}']

/-- Concrete input whose first ten raw lines are one ordinary line and nine
blank lines, followed by two JSON-object lines. -/
def fmtCexB : Str :=
  ['x', '\n', '\n', '\n', '\n', '\n', '\n', '\n', '\n', '\n', '\n',
   '{', 'a', '\n', '{', 'b']

/-- The eleven canonical field names (`REQUIRED_COLUMNS` in the source). -/
def REQUIRED_COLUMNS : List Str :=
  [(r"SupplierID").toList, (r"Deliverdate").toList, (r"CustomerID").toList,
   (r"LicenseNo").toList, (r"Category").toList, (r"UDID").toList,
   (r"DeviceNAME").toList, (r"LotNO").toList, (r"SerNo").toList,
   (r"Model").toList, (r"Number").toList]

/-- The minimum import fields (`MIN_IMPORT_COLUMNS` in the source). -/
def MIN_IMPORT_COLUMNS : List Str :=
  [(r"SupplierID").toList, (r"Deliverdate").toList, (r"CustomerID").toList,
   (r"Model").toList, (r"Number").toList]

/-- A raw parsed table: ordered association list from column name to the
column's cell strings. -/
abbrev RawTable := List (Str × List Str)

/-- Which parser stage of `parse_dataset_text` receives which text. -/
inductive ParseRoute
  | emptyIn
  | jsonText (payload : Str)
  | jsonlText (payload : Str)
  | csvText (payload : Str)
deriving DecidableEq, Repr

/-- The routing skeleton of `parse_dataset_text`: the input is stripped
and smart-quote normalized once up front, the format is detected on the
normalized text, and that same normalized text is what each parser is
handed (a failing JSON parse falls back to CSV parsing of the very same
text, so the CSV payload is the normalized text in that case too). -/
def parse_dataset_route (text : Str) : ParseRoute :=
  let t := normalize_smart_quotes (strip text)
  match detect_format t with
  | .empty => .emptyIn
  | .json => .jsonText t
  | .jsonl => .jsonlText t
  | .csv_or_text => .csvText t

/-- Model of the library call `pd.read_csv(..., engine="python")` with no
header, for the plain comma-separated inputs exercised here: blank lines
are skipped, each line is split on commas, and parsing fails unless every
row has the same number of fields (ragged input raises in pandas). -/
def read_csv_rows (text : Str) : Option (List (List Str)) :=
  let rows := ((splitlines text).filter (fun ln => ¬ ln = [])).map
    (fun ln => ln.splitOn ',')
  match rows with
  | [] => none
  | r :: rest =>
    if rest.all (fun q => q.length == r.length) then some (r :: rest) else none

/-- Model of `pd.read_csv` with a header row: the first parsed row gives
the column names, the remaining rows the data. -/
def read_csv_table (text : Str) : Option RawTable :=
  match read_csv_rows text with
  | none => none
  | some [] => none
  | some (hdr :: body) =>
    some (hdr.enum.map (fun p => (p.2, body.map (fun r => r.getD p.1 []))))

/-- Boolean substring test (`needle in hay` on Python strings). -/
def substrOf (needle hay : Str) : Bool :=
  (List.range (hay.length + 1)).any
    (fun i => (hay.drop i).take needle.length == needle)

/-- Arrange parsed rows into a table under the given column names:
column `i` collects field `i` of every row. -/
def toTable (names : List Str) (rows : List (List Str)) : RawTable :=
  names.enum.map (fun p => (p.2, rows.map (fun r => r.getD p.1 [])))

/-- Source function `headerless_csv_to_required`: requires at least two
non-blank lines, a first line containing no canonical column name
(case-insensitive substring check on the normalized line), a successful
header-free CSV parse of the normalized text, and exactly eleven
columns; it then assigns the canonical names positionally. -/
def headerless_csv_to_required (text : Str) : Option RawTable :=
  let lines := (splitlines text).filter (fun ln => ¬ strip ln = [])
  if lines.length < 2 then none
  else
    let first := normalize_smart_quotes (lines.getD 0 [])
    if REQUIRED_COLUMNS.any (fun col => substrOf (lowerStr col) (lowerStr first)) then
      none
    else
      match read_csv_rows (normalize_smart_quotes text) with
      | none => none
      | some rows =>
        if (rows.getD 0 []).length = REQUIRED_COLUMNS.length then
          some (toTable REQUIRED_COLUMNS rows)
        else none

/-- Concrete CSV-path input containing a curly quote. -/
def csvCexIn : Str := ['a', ',', '“', 'b', '\n', 'c', ',', 'd']

/-- The same input after smart-quote normalization. -/
def csvCexNorm : Str := ['a', ',', Char.ofNat 34, 'b', '\n', 'c', ',', 'd']

/-- First line of a headerless input that only becomes comma-separated
after fullwidth-comma normalization. -/
def fullwidthLine : Str := (r"a，b，c，d，e，f，g，h，i，j，k").toList

/-- Two copies of `fullwidthLine`, one per line. -/
def fullwidthTwo : Str := fullwidthLine ++ '\n' :: fullwidthLine

/-- The headerless scenario row from the claim. -/
def hdrlessRow : Str := (r"S1,20240101,C1,L1,Cat,U1,Dev,Lot1,Ser1,M1,10").toList

/-- Parsed fields of `hdrlessRow`. -/
def hdrlessFields : List Str := hdrlessRow.splitOn ','

/-- Witness input: the scenario row on two lines. -/
def hdrlessTwo : Str := hdrlessRow ++ '\n' :: hdrlessRow

/-- Number of binary digits of a natural number, by fuelled structural
recursion; the fuel `4200` covers every number below `2 ^ 4200`, far
beyond any numerator or denominator a binary64 computation produces. -/
def bitLenAux : ℕ → ℕ → ℕ
  | 0, _ => 0
  | f + 1, n => if n = 0 then 0 else bitLenAux f (n / 2) + 1

/-- Number of binary digits of a natural number. -/
def bitLen (n : ℕ) : ℕ := bitLenAux 4200 n

/-- Floor of the base-2 logarithm of `a / b`, for `1 ≤ a` and `1 ≤ b`. -/
def floorLog2Rat (a b : ℕ) : ℤ :=
  let K := bitLen a - 1
  let L := bitLen b - 1
  if b * 2 ^ K ≤ a * 2 ^ L then (K : ℤ) - L else (K : ℤ) - L - 1

/-- Round an exact rational to the nearest IEEE binary64 value
(round-to-nearest, ties-to-even, with gradual underflow below the
normal range, as CPython's `float` arithmetic does): scale `|q|` by the
power of two that puts it in `[2⁵², 2⁵³)` — never scaling below the
subnormal cutoff `2⁻¹⁰⁷⁴` — and round the scaled value to an integer
significand.  Magnitudes beyond the finite binary64 range do not occur
in the modelled computations, so infinities are not modelled. -/
def f64round (q : ℚ) : ℚ :=
  if q.num = 0 then 0
  else
    let sgn : ℤ := if q.num < 0 then -1 else 1
    let a := q.num.natAbs
    let b := q.den
    let e : ℤ := max (floorLog2Rat a b - 52) (-1074)
    let N := if 0 ≤ e then a else a * 2 ^ (-e).toNat
    let D := if 0 ≤ e then b * 2 ^ e.toNat else b
    let p := N / D
    let r := N % D
    let m := if 2 * r < D then p
      else if D < 2 * r then p + 1
      else if p % 2 = 0 then p else p + 1
    if 0 ≤ e then mkRat (sgn * ((m * 2 ^ e.toNat : ℕ) : ℤ)) 1
    else mkRat (sgn * (m : ℤ)) (2 ^ (-e).toNat)

/-- Binary64 addition: the exact sum, correctly rounded (IEEE 754). -/
def fadd (x y : ℚ) : ℚ :=
  f64round (mkRat (x.num * (y.den : ℤ) + y.num * (x.den : ℤ)) (x.den * y.den))

/-- Binary64 subtraction: the exact difference, correctly rounded. -/
def fsub (x y : ℚ) : ℚ :=
  f64round (mkRat (x.num * (y.den : ℤ) - y.num * (x.den : ℤ)) (x.den * y.den))

/-- Binary64 multiplication: the exact product, correctly rounded. -/
def fmul (x y : ℚ) : ℚ :=
  f64round (mkRat (x.num * y.num) (x.den * y.den))

/-- Binary64 division: the exact quotient, correctly rounded (this is
also CPython's `int / int` true division once both ints are exactly
representable, as the small `n` and `n + 1` here are). -/
def fdiv (x y : ℚ) : ℚ :=
  f64round (mkRat ((if y.num < 0 then -1 else 1) * (x.num * (y.den : ℤ)))
    (x.den * y.num.natAbs))

/-- The accumulation loop of `gini_coefficient` (`cum += i * v` over
1-based positions, lines 1181-1183), in binary64 arithmetic: the int
`i` converts exactly to a float, the product and the running sum each
round. -/
def wsum : ℕ → ℚ → List ℚ → ℚ
  | _, cum, [] => cum
  | i, cum, v :: r => wsum (i + 1) (fadd cum (fmul (mkRat (i : ℤ) 1) v)) r

/-- Source function `gini_coefficient` (lines 1172-1185): keep the
non-negative values, return 0 for an empty or zero-sum vector,
otherwise compute `2·Σ(i·v_i)/(n·Σv) − (n+1)/n` over the ascending sort
and clamp the result to `[0, 1]`.  The values are binary64 floats,
modelled as the exact rationals they denote; `sum(vals)` folds `fadd`
left over the sorted list from `0`, the loop accumulates with `wsum`,
and the remaining products, quotients and the subtraction each round
through `f64round`, while the comparisons of the sort, the guards and
the final `max`/`min` clamp are exact.  A `None` entry is modelled like
a negative entry (both are filtered out). -/
def gini_coefficient (values : List ℚ) : ℚ :=
  let vals := values.filter (fun v => 0 ≤ v)
  if vals = [] then 0
  else
    let sorted := vals.insertionSort (· ≤ ·)
    let n := sorted.length
    let s := sorted.foldl fadd 0
    if s = 0 then 0
    else
      let cum := wsum 1 0 sorted
      max 0 (min 1 (fsub (fdiv (fmul (mkRat 2 1) cum)
          (fmul (mkRat (n : ℤ) 1) s))
        (fdiv (mkRat ((n : ℤ) + 1) 1) (mkRat (n : ℤ) 1))))

/-- A calendar date (the payload of a parsed `pd.Timestamp`). -/
structure YMD where
  y : ℕ
  m : ℕ
  d : ℕ
deriving DecidableEq, Repr

/-- A cell of a standardized table: a string, a float (modelled as an
exact rational), or an optional parsed date (`none` is `NaT`). -/
inductive Val
  | vs (s : Str)
  | vq (q : ℚ)
  | vdt (d : Option YMD)
deriving DecidableEq, Repr

/-- A standardized table: ordered association list from column name to
the column's cells, mirroring a pandas DataFrame. -/
abbrev Table := List (Str × List Val)

/-- Column lookup (`df[name]`). -/
def getCol (t : Table) (name : Str) : Option (List Val) :=
  (t.find? (fun p => p.1 == name)).map (fun p => p.2)

/-- Column membership (`name in df.columns`). -/
def hasCol (t : Table) (name : Str) : Bool :=
  t.any (fun p => p.1 == name)

/-- Column assignment (`df[name] = col`): replaces the column in place
when the name exists, otherwise appends it at the end — exactly the
pandas `__setitem__` behaviour the pipeline relies on. -/
def setCol (t : Table) (name : Str) (col : List Val) : Table :=
  if hasCol t name then t.map (fun p => if p.1 == name then (p.1, col) else p)
  else t ++ [(name, col)]

/-- Map a function over one column's cells, in place. -/
def mapCol (t : Table) (name : Str) (f : Val → Val) : Table :=
  t.map (fun p => if p.1 == name then (p.1, p.2.map f) else p)

/-- Map an index-aware function over one column's cells, in place. -/
def mapColIdx (t : Table) (name : Str) (f : ℕ → Val → Val) : Table :=
  t.map (fun p => if p.1 == name then (p.1, p.2.mapIdx f) else p)

/-- Raw-table column lookup. -/
def rawGetCol (df : RawTable) (name : Str) : Option (List Str) :=
  (df.find? (fun p => p.1 == name)).map (fun p => p.2)

/-- Row count `len(df)` of a raw table: the length of its first column. -/
def rawRows (df : RawTable) : ℕ :=
  match df with
  | [] => 0
  | c :: _ => c.2.length

/-- A natural number from decimal digit characters. -/
def natOfDigits (s : Str) : ℕ :=
  s.foldl (fun a c => 10 * a + (c.toNat - 48)) 0

/-- An integer rendered in decimal. -/
def intToStr (i : ℤ) : Str :=
  if i < 0 then '-' :: Nat.toDigits 10 i.natAbs else Nat.toDigits 10 i.natAbs

/-- Python `str()` of a cell, as applied by `astype(str)`.  In this
embedding every raw cell is a string (strings render to themselves, as
in Python); the numeric and date renderings only exist for totality,
since the pipeline never re-renders the columns it has already coerced. -/
def valToStr : Val → Str
  | .vs s => s
  | .vq q =>
    if q.den = 1 then intToStr q.num ++ ['.', '0']
    else intToStr q.num ++ '/' :: Nat.toDigits 10 q.den
  | .vdt _ => []

/-- Python `float()` on a string containing only digits, dots and minus
signs (all the sanitizing regex of `_to_float` can leave): an optional
leading minus sign followed by digits holding at most one decimal point
and at least one digit; anything else raises, modelled as `none`. -/
def pyFloatOfSanitized (s : Str) : Option ℚ :=
  let neg := s.head? = some '-'
  let t := if neg then s.tail else s
  if t.any (fun c => c = '-') then none
  else
    let intPart := t.takeWhile (fun c => ¬ c = '.')
    let dotPart := t.dropWhile (fun c => ¬ c = '.')
    match dotPart with
    | [] =>
      if ¬ intPart = [] ∧ intPart.all Char.isDigit then
        some (mkRat ((if neg then -1 else 1) * (natOfDigits intPart : ℤ)) 1)
      else none
    | _ :: fracPart =>
      if fracPart.any (fun c => c = '.') then none
      else if ¬ (intPart ++ fracPart) = [] ∧ (intPart ++ fracPart).all Char.isDigit then
        some (mkRat
          ((if neg then -1 else 1) *
            ((natOfDigits intPart * 10 ^ fracPart.length + natOfDigits fracPart : ℕ) : ℤ))
          (10 ^ fracPart.length))
      else none

/-- Inner function `_to_float` of `standardize_dataset`: strip; empty is `None`;
remove commas; drop every character that is not a digit, a dot or a
minus sign; parse the remainder as a float, `None` on failure. -/
def to_float (s : Str) : Option ℚ :=
  let s1 := strip s
  if s1 = [] then none
  else
    let s2 := s1.filter (fun c => ¬ c = ',')
    let s3 := s2.filter (fun c => c.isDigit ∨ c = '.' ∨ c = '-')
    pyFloatOfSanitized s3

/-- Days in a month, with leap years. -/
def daysInMonth (y m : ℕ) : ℕ :=
  if m = 2 then if (y % 4 = 0 ∧ ¬ y % 100 = 0) ∨ y % 400 = 0 then 29 else 28
  else if m = 4 ∨ m = 6 ∨ m = 9 ∨ m = 11 then 30 else 31

/-- Calendar validity as enforced by `pd.to_datetime`. -/
def validYMD (y m d : ℕ) : Bool :=
  decide (1 ≤ m ∧ m ≤ 12 ∧ 1 ≤ d ∧ d ≤ daysInMonth y m)

/-- Model of generic `pd.to_datetime(s, errors="coerce")` on a string
that only holds digits, hyphens and slashes: a dash- or slash-separated
`YYYY-M-D` date (the ISO-style form such inputs can take); anything
else, and any invalid calendar date, is `NaT` (`none`). -/
def genericDate (s : Str) : Option YMD :=
  let parts :=
    if s.any (fun c => c = '-') ∧ ¬ s.any (fun c => c = '/') then s.splitOn '-'
    else if s.any (fun c => c = '/') ∧ ¬ s.any (fun c => c = '-') then s.splitOn '/'
    else []
  match parts with
  | [a, b, c] =>
    if a.length = 4 ∧ a.all Char.isDigit ∧
        ¬ b = [] ∧ b.length ≤ 2 ∧ b.all Char.isDigit ∧
        ¬ c = [] ∧ c.length ≤ 2 ∧ c.all Char.isDigit then
      let y := natOfDigits a
      let m := natOfDigits b
      let d := natOfDigits c
      if validYMD y m d then some ⟨y, m, d⟩ else none
    else none
  | _ => none

/-- Inner function `_parse_date` of `standardize_dataset`: `None` for empty input
after stripping; keep only digits, hyphens and slashes; an exactly
8-digit remainder parses as `YYYYMMDD` (`errors="coerce"`), anything
else goes through generic date parsing. -/
def parse_date_str (s0 : Str) : Option YMD :=
  let s1 := strip s0
  if s1 = [] then none
  else
    let s := s1.filter (fun c => c.isDigit ∨ c = '-' ∨ c = '/')
    if s.length = 8 ∧ s.all Char.isDigit then
      let y := natOfDigits (s.take 4)
      let m := natOfDigits ((s.drop 4).take 2)
      let d := natOfDigits (s.drop 6)
      if validYMD y m d then some ⟨y, m, d⟩ else none
    else genericDate s

/-- The alias table (`ALIASES` in the source), in declaration order. -/
def ALIASES : List (Str × Str) :=
  [((r"supplierid").toList, (r"SupplierID").toList),
   ((r"supplier_id").toList, (r"SupplierID").toList),
   ((r"supplier").toList, (r"SupplierID").toList),
   ((r"vendor").toList, (r"SupplierID").toList),
   ((r"deliverdate").toList, (r"Deliverdate").toList),
   ((r"deliver_date").toList, (r"Deliverdate").toList),
   ((r"deliverydate").toList, (r"Deliverdate").toList),
   ((r"delivery_date").toList, (r"Deliverdate").toList),
   ((r"date").toList, (r"Deliverdate").toList),
   ((r"customerid").toList, (r"CustomerID").toList),
   ((r"customer_id").toList, (r"CustomerID").toList),
   ((r"customer").toList, (r"CustomerID").toList),
   ((r"client").toList, (r"CustomerID").toList),
   ((r"licenseno").toList, (r"LicenseNo").toList),
   ((r"license_no").toList, (r"LicenseNo").toList),
   ((r"license").toList, (r"LicenseNo").toList),
   ((r"permit").toList, (r"LicenseNo").toList),
   ((r"category").toList, (r"Category").toList),
   ((r"product_category").toList, (r"Category").toList),
   ((r"device_category").toList, (r"Category").toList),
   ((r"udid").toList, (r"UDID").toList),
   ((r"udi").toList, (r"UDID").toList),
   ((r"primary_di").toList, (r"UDID").toList),
   ((r"devicename").toList, (r"DeviceNAME").toList),
   ((r"device_name").toList, (r"DeviceNAME").toList),
   ((r"device").toList, (r"DeviceNAME").toList),
   ((r"product").toList, (r"DeviceNAME").toList),
   ((r"lotno").toList, (r"LotNO").toList),
   ((r"lot_no").toList, (r"LotNO").toList),
   ((r"lot").toList, (r"LotNO").toList),
   ((r"batch").toList, (r"LotNO").toList),
   ((r"serno").toList, (r"SerNo").toList),
   ((r"ser_no").toList, (r"SerNo").toList),
   ((r"serial").toList, (r"SerNo").toList),
   ((r"serialno").toList, (r"SerNo").toList),
   ((r"serial_no").toList, (r"SerNo").toList),
   ((r"model").toList, (r"Model").toList),
   ((r"modelno").toList, (r"Model").toList),
   ((r"model_no").toList, (r"Model").toList),
   ((r"number").toList, (r"Number").toList),
   ((r"qty").toList, (r"Number").toList),
   ((r"quantity").toList, (r"Number").toList),
   ((r"units").toList, (r"Number").toList),
   ((r"count").toList, (r"Number").toList)]

/-- The `lower_cols` dictionary lookup: the last column whose lowered,
stripped name equals `key` (later dict entries overwrite earlier ones). -/
def lookupLower (cols : List Str) (key : Str) : Option Str :=
  cols.reverse.find? (fun c => strip (lowerStr c) == key)

/-- The alias-matching loop of `standardize_dataset`: the first alias
entry (in table order) that maps to `canon` and names an existing
column. -/
def aliasLookup (canon : Str) (cols : List Str) : Option Str :=
  (ALIASES.find? (fun kv => kv.2 == canon && (lookupLower cols kv.1).isSome)).bind
    (fun kv => lookupLower cols kv.1)

/-- The auto-mapping of `standardize_dataset`: for each canonical field,
an exact column-name match, else the alias table, else a
case-insensitive direct match. -/
def autoMap (cols : List Str) : List (Str × Str) :=
  REQUIRED_COLUMNS.filterMap (fun canon =>
    if cols.any (fun c => c == canon) then some (canon, canon)
    else
      match aliasLookup canon cols with
      | some src => some (canon, src)
      | none => (lookupLower cols (lowerStr canon)).map (fun src => (canon, src)))

/-- Dictionary update `m[k] = v` on an association list. -/
def setAssoc (m : List (Str × Str)) (k v : Str) : List (Str × Str) :=
  if m.any (fun p => p.1 == k) then
    m.map (fun p => if p.1 == k then (k, v) else p)
  else m ++ [(k, v)]

/-- The resolved mapping: the auto-mapping overridden by each user entry
whose key is canonical and whose source column is non-empty and exists. -/
def resolveMapping (cols : List Str) (user : List (Str × Str)) : List (Str × Str) :=
  user.foldl (fun m kv =>
    if REQUIRED_COLUMNS.any (fun c => c == kv.1) && ¬ kv.2 = [] &&
        cols.any (fun c => c == kv.2) then
      setAssoc m kv.1 kv.2
    else m) (autoMap cols)

/-- Association-list lookup (`mapping.get(k)`). -/
def lookupAssoc (m : List (Str × Str)) (k : Str) : Option Str :=
  (m.find? (fun p => p.1 == k)).map (fun p => p.2)

/-- Metadata column `_row_id`. -/
def nmRowId : Str := (r"_row_id").toList

/-- Metadata column `_source`. -/
def nmSource : Str := (r"_source").toList

/-- Metadata column `_import_ts`. -/
def nmImportTs : Str := (r"_import_ts").toList

/-- Metadata column `_quality_flags`. -/
def nmFlags : Str := (r"_quality_flags").toList

/-- Derived column `_Deliverdate_dt`. -/
def nmDt : Str := (r"_Deliverdate_dt").toList

/-- Canonical column `Number`. -/
def nmNumber : Str := (r"Number").toList

/-- Canonical column `Deliverdate`. -/
def nmDeliverdate : Str := (r"Deliverdate").toList

/-- The ten canonical string fields cleaned at line 787 of the source. -/
def STRING_FIELDS : List Str :=
  [(r"SupplierID").toList, (r"Deliverdate").toList, (r"CustomerID").toList,
   (r"LicenseNo").toList, (r"Category").toList, (r"UDID").toList,
   (r"DeviceNAME").toList, (r"LotNO").toList, (r"SerNo").toList,
   (r"Model").toList]

/-- Quality tag `bad_number`. -/
def tagBadNumber : Str := (r"bad_number").toList

/-- Quality tag `bad_date`. -/
def tagBadDate : Str := (r"bad_date").toList

/-- Quality tag `duplicate`. -/
def tagDuplicate : Str := (r"duplicate").toList

/-- Python `str.strip("|")`: drop pipe characters from both ends. -/
def stripPipes (s : Str) : Str :=
  ((s.dropWhile (fun c => c = '|')).reverse.dropWhile (fun c => c = '|')).reverse

/-- Expression `(flags + "|tag").strip("|")`, the flag-appending expression of the
source. -/
def addTag (fl tag : Str) : Str :=
  stripPipes (fl ++ '|' :: tag)

/-- Apply a quality tag to the `_quality_flags` cell of every row the
mask selects (`out.loc[mask, "_quality_flags"] = ...`). -/
def tagRows (t : Table) (mask : List Bool) (tag : Str) : Table :=
  mapColIdx t nmFlags
    (fun i v => if mask.getD i false then .vs (addTag (valToStr v) tag) else v)

/-- Unique per-row identifier; `uuid.uuid4().hex` is modelled by the
row's index rendered after an `r`, which is collision-free across the
table. -/
def rowIdOf (i : ℕ) : Str := 'r' :: Nat.toDigits 10 i

/-- The standardization report (`report` dict of `standardize_dataset`).
The `coercions` sub-dictionary is modelled by one counter per key, an
absent key being the counter 0. -/
structure Report where
  mapping_used : List (Str × Str)
  warnings : List Str
  number_invalid : ℕ
  date_unparseable : ℕ
  duplicates_flagged : ℕ
  missing_required : List Str
  confidence : ℕ
  dropped_rows : ℕ
deriving DecidableEq, Repr

/-- The report before any processing. -/
def baseReport : Report :=
  { mapping_used := [], warnings := [], number_invalid := 0,
    date_unparseable := 0, duplicates_flagged := 0, missing_required := [],
    confidence := 0, dropped_rows := 0 }

/-- The empty standardized table returned for an empty input. -/
def emptyStdTable : Table :=
  (REQUIRED_COLUMNS ++ [nmRowId, nmSource, nmImportTs, nmFlags]).map
    (fun c => (c, []))

/-- Line 734-735 of the source: copy the frame and strip its column
names. -/
def stdDff (df : RawTable) : RawTable :=
  df.map (fun p => (strip p.1, p.2))

/-- The stripped column names of the input. -/
def stdCols (df : RawTable) : List Str :=
  (stdDff df).map (fun p => p.1)

/-- The row count of the processed input. -/
def stdN (df : RawTable) : ℕ := rawRows (stdDff df)

/-- Lines 737-764: the resolved mapping. -/
def stdMapping (df : RawTable) (um : List (Str × Str)) : List (Str × Str) :=
  resolveMapping (stdCols df) um

/-- Lines 766-773: the canonical frame, copied from the mapped source
column when resolved, else filled with empty strings. -/
def stdOut0 (df : RawTable) (um : List (Str × Str)) : Table :=
  REQUIRED_COLUMNS.map (fun canon =>
    match lookupAssoc (stdMapping df um) canon with
    | some src =>
      if ¬ src = [] ∧ (stdCols df).any (fun c => c == src) then
        (canon, ((rawGetCol (stdDff df) src).getD []).map Val.vs)
      else (canon, List.replicate (stdN df) (Val.vs []))
    | none => (canon, List.replicate (stdN df) (Val.vs [])))

/-- Line 776: the source columns not consumed by the mapping. -/
def stdExtras (df : RawTable) (um : List (Str × Str)) : RawTable :=
  (stdDff df).filter
    (fun p => ¬ ((stdMapping df um).map (fun q => q.2)).any (fun c => c == p.1))

/-- Lines 776-778: extras assigned onto the canonical frame (an
assignment to an existing name overwrites that column in place). -/
def stdOut1 (df : RawTable) (um : List (Str × Str)) : Table :=
  (stdExtras df um).foldl (fun t p => setCol t p.1 (p.2.map Val.vs)) (stdOut0 df um)

/-- Lines 781-784: the metadata columns. -/
def stdOut5 (df : RawTable) (source_label ts : Str) (um : List (Str × Str)) : Table :=
  setCol (setCol (setCol (setCol (stdOut1 df um)
    nmRowId ((List.range (stdN df)).map (fun i => Val.vs (rowIdOf i))))
    nmSource (List.replicate (stdN df) (Val.vs source_label)))
    nmImportTs (List.replicate (stdN df) (Val.vs ts)))
    nmFlags (List.replicate (stdN df) (Val.vs []))

/-- Lines 787-788: string cleaning of the ten non-`Number` canonical
fields. -/
def stdOut6 (df : RawTable) (source_label ts : Str) (um : List (Str × Str)) : Table :=
  STRING_FIELDS.foldl
    (fun t c => mapCol t c (fun v => Val.vs (strip (valToStr v))))
    (stdOut5 df source_label ts um)

/-- Line 791: the raw `Number` column fed to coercion. -/
def stdNumRaw (df : RawTable) (source_label ts : Str) (um : List (Str × Str)) : List Val :=
  (getCol (stdOut6 df source_label ts um) nmNumber).getD []

/-- Line 803: the per-row coercion results. -/
def stdCoerced (df : RawTable) (source_label ts : Str) (um : List (Str × Str)) :
    List (Option ℚ) :=
  (stdNumRaw df source_label ts um).map (fun v => to_float (valToStr v))

/-- Lines 803-808: `Number` replaced by the coerced values and failures
tagged `bad_number`. -/
def stdOut8 (df : RawTable) (source_label ts : Str) (um : List (Str × Str)) : Table :=
  let coerced := stdCoerced df source_label ts um
  let out7 := setCol (stdOut6 df source_label ts um) nmNumber
    (coerced.map (fun o => Val.vq (o.getD 0)))
  if coerced.countP (fun o => o.isNone) ≠ 0 then
    tagRows out7 (coerced.map (fun o => o.isNone)) tagBadNumber
  else out7

/-- Lines 811-825: the per-row parsed dates. -/
def stdParsed (df : RawTable) (source_label ts : Str) (um : List (Str × Str)) :
    List (Option YMD) :=
  ((getCol (stdOut8 df source_label ts um) nmDeliverdate).getD []).map
    (fun v => parse_date_str (valToStr v))

/-- Lines 825-829: the `_Deliverdate_dt` column added and unparseable
dates tagged `bad_date`. -/
def stdOut10 (df : RawTable) (source_label ts : Str) (um : List (Str × Str)) : Table :=
  let parsed := stdParsed df source_label ts um
  let out9 := setCol (stdOut8 df source_label ts um) nmDt (parsed.map Val.vdt)
  if parsed.countP (fun o => o.isNone) ≠ 0 then
    tagRows out9 (parsed.map (fun o => o.isNone)) tagBadDate
  else out9

/-- Lines 832-837: the duplicate mask of `out.duplicated(subset=
REQUIRED_COLUMNS, keep="first")` — row `i` is flagged when an earlier
row has the same eleven canonical values. -/
def stdDupMask (df : RawTable) (source_label ts : Str) (um : List (Str × Str)) :
    List Bool :=
  let keys := (List.range (stdN df)).map (fun i =>
    REQUIRED_COLUMNS.map (fun c =>
      ((getCol (stdOut10 df source_label ts um) c).getD []).getD i (Val.vs [])))
  (List.range (stdN df)).map (fun i =>
    (List.range i).any (fun j => keys.getD j [] == keys.getD i []))

/-- Lines 832-837: duplicates tagged. -/
def stdOut11 (df : RawTable) (source_label ts : Str) (um : List (Str × Str)) : Table :=
  if (stdDupMask df source_label ts um).countP (fun b => b) ≠ 0 then
    tagRows (stdOut10 df source_label ts um) (stdDupMask df source_label ts um)
      tagDuplicate
  else stdOut10 df source_label ts um

/-- Lines 841-852: the missing-required check. -/
def stdMissing (df : RawTable) (source_label ts : Str) (um : List (Str × Str)) :
    List Str :=
  MIN_IMPORT_COLUMNS.filter (fun c =>
    if ¬ hasCol (stdOut11 df source_label ts um) c then true
    else if c == nmNumber then false
    else ((getCol (stdOut11 df source_label ts um) c).getD []).all
      (fun v => strip (valToStr v) == []))

/-- Lines 854-867: the capped confidence score (integer truncation of
the non-negative ratios is exact natural division; `max(1, 11)` is 11). -/
def stdConfidence (df : RawTable) (source_label ts : Str) (um : List (Str × Str)) : ℕ :=
  let mappedCount := REQUIRED_COLUMNS.countP (fun c =>
    (lookupAssoc (stdMapping df um) c).elim false
      (fun s => (stdCols df).any (fun c2 => c2 == s)))
  min 100 ((60 * mappedCount) / 11 +
    (if stdMissing df source_label ts um = [] then 20 else 0) +
    (10 * (stdParsed df source_label ts um).countP (fun o => o.isSome)) / stdN df +
    (10 * (stdCoerced df source_label ts um).countP (fun o => 0 < o.getD 0)) / stdN df)

/-- Source function `standardize_dataset`, over string-celled raw tables
(the cells a CSV parse produces; `astype(str)` is then the identity),
with `source_label` and the report timestamp passed in.  The stages
`stdDff` through `stdConfidence` follow the Python line by line; the
empty-input fallback mirrors lines 727-732. -/
def standardize_dataset (df : RawTable) (source_label ts : Str)
    (user_mapping : List (Str × Str)) : Table × Report :=
  if df = [] ∨ rawRows df = 0 then
    (emptyStdTable,
      { baseReport with
          warnings := [(r"Empty dataset").toList],
          missing_required := MIN_IMPORT_COLUMNS })
  else
    (stdOut11 df source_label ts user_mapping,
      { mapping_used := stdMapping df user_mapping, warnings := [],
        number_invalid :=
          (stdCoerced df source_label ts user_mapping).countP (fun o => o.isNone),
        date_unparseable :=
          (stdParsed df source_label ts user_mapping).countP (fun o => o.isNone),
        duplicates_flagged :=
          (stdDupMask df source_label ts user_mapping).countP (fun b => b),
        missing_required := stdMissing df source_label ts user_mapping,
        confidence := stdConfidence df source_label ts user_mapping,
        dropped_rows := 0 })

/-- Well-formedness of a raw table, as pandas guarantees for a parsed
DataFrame: rectangular (every column has the row count) and, after
name-stripping, duplicate-free column names. -/
def WfRaw (df : RawTable) : Prop :=
  (∀ p ∈ df, p.2.length = rawRows df) ∧ (df.map (fun p => strip p.1)).Nodup

/-- In-place column update: the general shape shared by the replace
branch of `setCol`, by `mapCol` and by `mapColIdx`. -/
def updCol (t : Table) (name : Str) (g : List Val → List Val) : Table :=
  t.map (fun p => if p.1 == name then (p.1, g p.2) else p)

/-- Every column of `t` has length `n`. -/
def TableLen (t : Table) (n : ℕ) : Prop :=
  ∀ p ∈ t, p.2.length = n

/-- The column names of a table, in order (`df.columns`). -/
def names (t : Table) : List Str := t.map (fun p => p.1)

/-- The first eleven columns are the canonical ones. -/
def NamesOk (t : Table) : Prop :=
  11 ≤ (names t).length ∧ (names t).take 11 = REQUIRED_COLUMNS

/-- One tagging pass over the flags column. -/
def tagStep (mask : List Bool) (tag : Str) (c : List Val) : List Val :=
  c.mapIdx (fun i v => if mask.getD i false then .vs (addTag (valToStr v) tag) else v)

/-- The flags column after the `bad_number` pass. -/
def stdFlags8 (df : RawTable) (src ts : Str) (um : List (Str × Str)) : List Val :=
  if (stdCoerced df src ts um).countP (fun o => o.isNone) ≠ 0 then
    tagStep ((stdCoerced df src ts um).map (fun o => o.isNone)) tagBadNumber
      (List.replicate (stdN df) (Val.vs []))
  else List.replicate (stdN df) (Val.vs [])

/-- The flags column after the `bad_date` pass. -/
def stdFlags10 (df : RawTable) (src ts : Str) (um : List (Str × Str)) : List Val :=
  if (stdParsed df src ts um).countP (fun o => o.isNone) ≠ 0 then
    tagStep ((stdParsed df src ts um).map (fun o => o.isNone)) tagBadDate
      (stdFlags8 df src ts um)
  else stdFlags8 df src ts um

/-- The final flags column, after the `duplicate` pass. -/
def stdFlags11 (df : RawTable) (src ts : Str) (um : List (Str × Str)) : List Val :=
  if (stdDupMask df src ts um).countP (fun b => b) ≠ 0 then
    tagStep (stdDupMask df src ts um) tagDuplicate (stdFlags10 df src ts um)
  else stdFlags10 df src ts um

/-- The flag string `s` contains `tag` as a contiguous substring. -/
def tagMem (tag s : Str) : Prop := ∃ a b, s = a ++ tag ++ b

/-- A cell holding a successfully parsed date. -/
def isParsedDate : Val → Bool
  | .vdt (some _) => true
  | _ => false

/-- A cell holding a strictly positive float. -/
def isPosNumber : Val → Bool
  | .vq q => decide (0 < q)
  | _ => false

/-- Column names written by the pipeline itself: the canonical fields,
the metadata columns and the derived date column.  An extra source
column carrying one of these names is overwritten in place rather than
preserved. -/
def RESERVED_COLUMNS : List Str :=
  REQUIRED_COLUMNS ++ [nmRowId, nmSource, nmImportTs, nmFlags, nmDt]

/-- The session-scoped staging state of `dataset_manager`: the active
dataset with its report and warnings, and the six staged entries that
`Cancel` pops (`dataset_stage_raw`, `_std`, `_report`, `_warnings`,
`_detected_fmt`, `_user_mapping`); a `none` field models an absent
session key. -/
structure StageState where
  active : Option Table
  activeReport : Option Report
  activeWarnings : List Str
  stagedRaw : Option RawTable
  stagedStd : Option Table
  stagedReport : Option Report
  stagedWarnings : Option (List Str)
  stagedFmt : Option Str
  stagedUserMapping : Option (List (Str × Str))
deriving DecidableEq, Repr

/-- Lines 1730-1733: the Import button is enabled exactly when a staged
report exists and its `missing_required` list is empty. -/
def can_import (st : StageState) : Bool :=
  match st.stagedReport with
  | some rep => rep.missing_required.isEmpty
  | none => false

/-- Lines 1735-1745: clicking Import (only possible when enabled)
replaces the active dataset wholesale by the staged standardized table
and records the staged report; no staged key is popped. -/
def do_import (st : StageState) : StageState :=
  if can_import st then
    match st.stagedStd with
    | some std =>
      { st with
          active := some std,
          activeReport := st.stagedReport,
          activeWarnings := (st.stagedWarnings).getD [] }
    | none => st
  else st

/-- Lines 1747-1754: Cancel pops all six staged keys and leaves the
active dataset untouched. -/
def do_cancel (st : StageState) : StageState :=
  { st with
      stagedRaw := none,
      stagedStd := none,
      stagedReport := none,
      stagedWarnings := none,
      stagedFmt := none,
      stagedUserMapping := none }

/-- Witness state for C2: importable staged data. -/
def stWitness : StageState :=
  { active := none, activeReport := none, activeWarnings := [],
    stagedRaw := some [(nmNumber, [['1']])],
    stagedStd := some [(nmNumber, [Val.vq 1])],
    stagedReport := some baseReport,
    stagedWarnings := some [], stagedFmt := some [],
    stagedUserMapping := some [] }

/-- C6 counterexample: the detector does not behave as claimed.  It never
strips a `Datasets:`/`Data:` tag (`fmtCexA` is classified `csv_or_text`,
the claimed rules give `json`), and its JSONL heuristic scans the first
ten raw lines rather than the first ten non-empty lines (`fmtCexB` is
classified `csv_or_text`, the claimed rules give `jsonl`). -/
theorem detect_format_claimed_cex :
    detect_format fmtCexA ≠ detect_format_claimed fmtCexA ∧
    detect_format fmtCexB ≠ detect_format_claimed fmtCexB := by
  constructor <;> decide

/-- C6 (amended): `detect_format` classifies by the claimed rules except
that no `Datasets:`/`Data:` tag is stripped and the JSONL heuristic
counts brace-initial lines among the first ten raw lines (blank lines
included); it is total and always returns one of the four labels. -/
theorem detect_format_amended_eq (text : Str) :
    detect_format text = detect_format_rules text := by
  unfold detect_format detect_format_rules
  cases h : strip text with
  | nil => simp
  | cons c rest =>
    by_cases hc : c = '{' ∨ c = '[' <;> simp [hc]

/-- C3 counterexample: an input on the CSV-or-text path reaches the CSV
parser smart-quote normalized, not verbatim — `parse_dataset_text`
normalizes the whole text before format detection, so the claimed
invariant (no character normalization before CSV parsing) is false. -/
theorem csv_no_normalization_cex :
    parse_dataset_route csvCexIn = .csvText csvCexNorm ∧
    ¬ csvCexNorm = strip csvCexIn := by
  decide

/-- C3 (amended): character normalization (curly quotes, fullwidth comma)
is applied to the whole trimmed input before format detection, and the
very same normalized text is what every parser — including the CSV
parser — receives; `headerless_csv_to_required` likewise normalizes the
full text before its CSV parse (witnessed by an input that only has
eleven columns after fullwidth commas are normalized).  Extracted string
values are not separately normalized afterwards. -/
theorem csv_normalization_amended (text : Str) :
    (parse_dataset_route text = .emptyIn ∨
     parse_dataset_route text = .jsonText (normalize_smart_quotes (strip text)) ∨
     parse_dataset_route text = .jsonlText (normalize_smart_quotes (strip text)) ∨
     parse_dataset_route text = .csvText (normalize_smart_quotes (strip text))) ∧
    (headerless_csv_to_required fullwidthTwo).map (fun t => t.map (fun p => p.1)) =
      some REQUIRED_COLUMNS := by
  constructor
  · unfold parse_dataset_route
    cases h : detect_format (normalize_smart_quotes (strip text)) <;> simp [h]
  · decide

/-- C7 counterexample: on the single headerless row the claim describes,
`headerless_csv_to_required` refuses (it requires at least two non-blank
lines), the text falls through to the ordinary CSV path, and the
resulting headered parse does not carry the canonical column names. -/
theorem headerless_single_row_cex :
    headerless_csv_to_required hdrlessRow = none ∧
    parse_dataset_route hdrlessRow = .csvText hdrlessRow ∧
    ¬ (read_csv_table hdrlessRow).map (fun t => t.map (fun p => p.1)) =
        some REQUIRED_COLUMNS := by
  decide

/-- C7 (amended): headerless canonical-CSV detection fires only for
texts with at least two non-blank lines; when additionally the first
line contains no canonical field name (case-insensitively) and the
normalized text parses header-free into rows of exactly eleven fields,
the canonical field names are assigned positionally in declared order.
A single data row is instead handed to the headered CSV parser. -/
theorem headerless_amended (text : Str) (rows : List (List Str))
    (h2 : ¬ ((splitlines text).filter (fun ln => ¬ strip ln = [])).length < 2)
    (hh : REQUIRED_COLUMNS.any (fun col => substrOf (lowerStr col)
        (lowerStr (normalize_smart_quotes
          (((splitlines text).filter (fun ln => ¬ strip ln = [])).getD 0 [])))) = false)
    (hr : read_csv_rows (normalize_smart_quotes text) = some rows)
    (hw : (rows.getD 0 []).length = 11) :
    headerless_csv_to_required text = some (toTable REQUIRED_COLUMNS rows) ∧
    (toTable REQUIRED_COLUMNS rows).map (fun p => p.1) = REQUIRED_COLUMNS ∧
    ∀ p ∈ toTable REQUIRED_COLUMNS rows, p.2.length = rows.length := by
  refine ⟨?_, ?_, ?_⟩
  · simp only [headerless_csv_to_required, if_neg h2, hh, Bool.false_eq_true,
      if_false, hr]
    have hlen : REQUIRED_COLUMNS.length = 11 := by decide
    rw [hlen, if_pos hw]
  · simp [toTable, List.map_map, Function.comp_def, List.enum_map_snd]
  · intro p hp
    simp only [toTable, List.mem_map] at hp
    obtain ⟨q, _, rfl⟩ := hp
    simp

/-- Witness for the amended headerless claim at the two-line input. -/
theorem headerless_amended_witness :
    headerless_csv_to_required hdrlessTwo =
      some (toTable REQUIRED_COLUMNS [hdrlessFields, hdrlessFields]) ∧
    (toTable REQUIRED_COLUMNS [hdrlessFields, hdrlessFields]).map (fun p => p.1) =
      REQUIRED_COLUMNS ∧
    ∀ p ∈ toTable REQUIRED_COLUMNS [hdrlessFields, hdrlessFields],
      p.2.length = [hdrlessFields, hdrlessFields].length :=
  headerless_amended hdrlessTwo [hdrlessFields, hdrlessFields]
    (by decide) (by decide) (by decide) (by decide)

/-- Let-free restatement of `gini_coefficient`, for case splitting. -/
theorem gini_coefficient_eq (values : List ℚ) :
    gini_coefficient values =
      if values.filter (fun v => 0 ≤ v) = [] then 0
      else if ((values.filter (fun v => 0 ≤ v)).insertionSort (· ≤ ·)).foldl fadd 0 = 0
      then 0
      else
        max 0 (min 1 (fsub
          (fdiv
            (fmul (mkRat 2 1)
              (wsum 1 0 ((values.filter (fun v => 0 ≤ v)).insertionSort (· ≤ ·))))
            (fmul
              (mkRat ((((values.filter (fun v => 0 ≤ v)).insertionSort (· ≤ ·)).length : ℤ)) 1)
              (((values.filter (fun v => 0 ≤ v)).insertionSort (· ≤ ·)).foldl fadd 0)))
          (fdiv
            (mkRat ((((values.filter (fun v => 0 ≤ v)).insertionSort (· ≤ ·)).length : ℤ) + 1) 1)
            (mkRat (((values.filter (fun v => 0 ≤ v)).insertionSort (· ≤ ·)).length : ℤ) 1)))) :=
  rfl

theorem fadd_zero_zero : fadd 0 0 = 0 := by decide

theorem foldl_fadd_eq_zero (l : List ℚ) (h : ∀ x ∈ l, x = 0) :
    l.foldl fadd 0 = 0 := by
  induction l with
  | nil => rfl
  | cons a t ih =>
    have ha : a = 0 := h a (List.mem_cons_self a t)
    rw [List.foldl_cons, ha, fadd_zero_zero]
    exact ih (fun x hx => h x (List.mem_cons_of_mem a hx))

/-- C9 (amended): `gini_coefficient` is clamped to `[0, 1]` on every
input and is `0` on the empty vector and on any all-zero vector.  The
claimed identity `gini [x, x, x] = 0` for every constant `x` is dropped:
the float sum `0.0 + x + x + x` and the two quotients each round, and
for many binary64 values `x` the rounding residue `2⁻⁵²` survives the
clamp. -/
theorem gini_properties_amended :
    (∀ v : List ℚ, 0 ≤ gini_coefficient v ∧ gini_coefficient v ≤ 1) ∧
    gini_coefficient [] = 0 ∧
    (∀ v : List ℚ, (∀ x ∈ v, x = 0) → gini_coefficient v = 0) := by
  have hbounds : ∀ v : List ℚ, 0 ≤ gini_coefficient v ∧ gini_coefficient v ≤ 1 := by
    intro v
    rw [gini_coefficient_eq]
    split
    · exact ⟨le_refl 0, zero_le_one⟩
    · split
      · exact ⟨le_refl 0, zero_le_one⟩
      · exact ⟨le_max_left _ _, max_le zero_le_one (min_le_left _ _)⟩
  refine ⟨hbounds, by decide, ?_⟩
  intro v hv
  rw [gini_coefficient_eq]
  split
  · rfl
  · next hne =>
    have hs : ((v.filter (fun x => 0 ≤ x)).insertionSort (· ≤ ·)).foldl fadd 0 = 0 := by
      apply foldl_fadd_eq_zero
      intro x hx
      have hx' : x ∈ v.filter (fun y => 0 ≤ y) :=
        ((v.filter (fun y => 0 ≤ y)).perm_insertionSort (· ≤ ·)).mem_iff.mp hx
      exact hv x (List.mem_of_mem_filter hx')
    rw [if_pos hs]

/-- Witness for the all-zero clause of the amended gini claim, at
`[0, 0]`. -/
theorem gini_properties_amended_witness : gini_coefficient [(0 : ℚ), 0] = 0 :=
  gini_properties_amended.2.2 [0, 0] (by decide)

/-- C9 counterexample: for the binary64 value `1.1`
(exactly `2476979795053773 / 2⁵¹`), `gini_coefficient [1.1, 1.1, 1.1]`
evaluates to `2⁻⁵²`, not `0`: `s = 0.0 + 1.1 + 1.1 + 1.1` rounds, the
quotient `(2·cum)/(n·s)` rounds one ulp above `4/3`, and the positive
residue survives the `[0, 1]` clamp. -/
theorem gini_constant_cex :
    gini_coefficient [mkRat 2476979795053773 2251799813685248,
        mkRat 2476979795053773 2251799813685248,
        mkRat 2476979795053773 2251799813685248] =
      mkRat 1 4503599627370496 ∧
    ¬ gini_coefficient [mkRat 2476979795053773 2251799813685248,
        mkRat 2476979795053773 2251799813685248,
        mkRat 2476979795053773 2251799813685248] = 0 := by
  constructor
  · decide
  · decide

theorem mapCol_eq_updCol (t : Table) (name : Str) (f : Val → Val) :
    mapCol t name f = updCol t name (fun c => c.map f) := rfl

theorem mapColIdx_eq_updCol (t : Table) (name : Str) (f : ℕ → Val → Val) :
    mapColIdx t name f = updCol t name (fun c => c.mapIdx f) := rfl

theorem updCol_cons_pos (p : Str × List Val) (rest : Table) (name : Str)
    (g : List Val → List Val) (hp : (p.1 == name) = true) :
    updCol (p :: rest) name g = (p.1, g p.2) :: updCol rest name g := by
  have h' : p.1 = name := eq_of_beq hp
  simp [updCol, h']

theorem updCol_cons_neg (p : Str × List Val) (rest : Table) (name : Str)
    (g : List Val → List Val) (hp : (p.1 == name) = false) :
    updCol (p :: rest) name g = p :: updCol rest name g := by
  have h' : ¬ p.1 = name := by simpa using hp
  simp [updCol, h']

theorem getCol_updCol_self (t : Table) (name : Str) (g : List Val → List Val) :
    getCol (updCol t name g) name = (getCol t name).map g := by
  induction t with
  | nil => rfl
  | cons p rest ih =>
    cases hp : (p.1 == name) with
    | true =>
      rw [updCol_cons_pos p rest name g hp]
      simp only [getCol, List.find?_cons, hp]
      rfl
    | false =>
      rw [updCol_cons_neg p rest name g hp]
      simp only [getCol, List.find?_cons, hp]
      exact ih

theorem getCol_updCol_ne (t : Table) (name nm : Str) (g : List Val → List Val)
    (h : ¬ name = nm) :
    getCol (updCol t name g) nm = getCol t nm := by
  induction t with
  | nil => rfl
  | cons p rest ih =>
    cases hp : (p.1 == name) with
    | true =>
      have hp' : p.1 = name := eq_of_beq hp
      have hne : (p.1 == nm) = false := by
        rw [hp']
        exact beq_eq_false_iff_ne.mpr h
      rw [updCol_cons_pos p rest name g hp]
      simp only [getCol, List.find?_cons, hne]
      exact ih
    | false =>
      cases hq : (p.1 == nm) with
      | true =>
        rw [updCol_cons_neg p rest name g hp]
        simp only [getCol, List.find?_cons, hq]
      | false =>
        rw [updCol_cons_neg p rest name g hp]
        simp only [getCol, List.find?_cons, hq]
        exact ih

theorem setCol_eq (t : Table) (name : Str) (col : List Val) :
    setCol t name col =
      if hasCol t name then updCol t name (fun _ => col) else t ++ [(name, col)] := rfl

theorem getCol_append_single (t : Table) (name nm : Str) (col : List Val) :
    getCol (t ++ [(name, col)]) nm =
      ((getCol t nm).orElse (fun _ => if (name == nm) = true then some col else none)) := by
  simp only [getCol, List.find?_append]
  cases h : (t.find? (fun p => p.1 == nm)) with
  | none =>
    simp only [Option.or, Option.map, Option.orElse]
    cases hnm : (name == nm) with
    | true => simp [List.find?_cons, hnm]
    | false => simp [List.find?_cons, hnm]
  | some v => simp [Option.or, Option.orElse]

theorem getCol_setCol_self (t : Table) (name : Str) (col : List Val) :
    getCol (setCol t name col) name = some col := by
  rw [setCol_eq]
  cases h : hasCol t name with
  | true =>
    simp only [if_true]
    rw [getCol_updCol_self]
    have hfind : (t.find? (fun p => p.1 == name)).isSome = true := by
      rw [List.find?_isSome]
      unfold hasCol at h
      rcases List.any_eq_true.mp h with ⟨p, hp, hpred⟩
      exact ⟨p, hp, hpred⟩
    have : (getCol t name).isSome = true := by
      unfold getCol
      cases hf : (t.find? (fun p => p.1 == name)) with
      | none => rw [hf] at hfind; cases hfind
      | some v => rfl
    obtain ⟨c, hc⟩ := Option.isSome_iff_exists.mp this
    rw [hc]
    rfl
  | false =>
    simp only [Bool.false_eq_true, if_false]
    rw [getCol_append_single]
    have hnone : getCol t name = none := by
      unfold hasCol at h
      unfold getCol
      cases hf : (t.find? (fun p => p.1 == name)) with
      | none => rfl
      | some v =>
        have hv := List.find?_some hf
        have hm := List.mem_of_find?_eq_some hf
        have hany : (List.any t fun p => p.1 == name) = true :=
          List.any_eq_true.mpr ⟨v, hm, hv⟩
        rw [hany] at h
        cases h
    rw [hnone]
    simp [Option.orElse]

theorem getCol_setCol_ne (t : Table) (name nm : Str) (col : List Val)
    (h : ¬ name = nm) :
    getCol (setCol t name col) nm = getCol t nm := by
  rw [setCol_eq]
  cases hc : hasCol t name with
  | true =>
    simp only [if_true]
    exact getCol_updCol_ne t name nm _ h
  | false =>
    simp only [Bool.false_eq_true, if_false]
    rw [getCol_append_single]
    have : (name == nm) = false := beq_eq_false_iff_ne.mpr h
    rw [this]
    cases hg : getCol t nm with
    | none => simp [Option.orElse]
    | some c => simp [Option.orElse]

theorem getCol_mapCol_self (t : Table) (name : Str) (f : Val → Val) :
    getCol (mapCol t name f) name = (getCol t name).map (fun c => c.map f) := by
  rw [mapCol_eq_updCol, getCol_updCol_self]

theorem getCol_mapCol_ne (t : Table) (name nm : Str) (f : Val → Val)
    (h : ¬ name = nm) :
    getCol (mapCol t name f) nm = getCol t nm := by
  rw [mapCol_eq_updCol]
  exact getCol_updCol_ne t name nm _ h

theorem getCol_mapColIdx_self (t : Table) (name : Str) (f : ℕ → Val → Val) :
    getCol (mapColIdx t name f) name = (getCol t name).map (fun c => c.mapIdx f) := by
  rw [mapColIdx_eq_updCol, getCol_updCol_self]

theorem getCol_mapColIdx_ne (t : Table) (name nm : Str) (f : ℕ → Val → Val)
    (h : ¬ name = nm) :
    getCol (mapColIdx t name f) nm = getCol t nm := by
  rw [mapColIdx_eq_updCol]
  exact getCol_updCol_ne t name nm _ h

theorem getCol_tagRows_self (t : Table) (mask : List Bool) (tag : Str) :
    getCol (tagRows t mask tag) nmFlags =
      (getCol t nmFlags).map (fun c => c.mapIdx
        (fun i v => if mask.getD i false then .vs (addTag (valToStr v) tag) else v)) :=
  getCol_mapColIdx_self t nmFlags _

theorem getCol_tagRows_ne (t : Table) (mask : List Bool) (tag : Str) (nm : Str)
    (h : ¬ nmFlags = nm) :
    getCol (tagRows t mask tag) nm = getCol t nm :=
  getCol_mapColIdx_ne t nmFlags nm _ h

theorem TableLen_updCol (t : Table) (name : Str) (g : List Val → List Val) (n : ℕ)
    (h : TableLen t n) (hg : ∀ c, c.length = n → (g c).length = n) :
    TableLen (updCol t name g) n := by
  intro p hp
  rcases List.mem_map.mp hp with ⟨q, hq, rfl⟩
  by_cases hc : (q.1 == name) = true
  · simp only [if_pos hc]
    exact hg _ (h q hq)
  · simp only [if_neg hc]
    exact h q hq

theorem TableLen_setCol (t : Table) (name : Str) (col : List Val) (n : ℕ)
    (h : TableLen t n) (hc : col.length = n) :
    TableLen (setCol t name col) n := by
  rw [setCol_eq]
  cases hb : hasCol t name with
  | true =>
    simp only [if_true]
    exact TableLen_updCol t name _ n h (fun c _ => hc)
  | false =>
    simp only [Bool.false_eq_true, if_false]
    intro p hp
    rcases List.mem_append.mp hp with hp | hp
    · exact h p hp
    · simp only [List.mem_singleton] at hp
      subst hp
      exact hc

theorem TableLen_mapCol (t : Table) (name : Str) (f : Val → Val) (n : ℕ)
    (h : TableLen t n) :
    TableLen (mapCol t name f) n := by
  rw [mapCol_eq_updCol]
  exact TableLen_updCol t name _ n h (fun c hcl => by simpa using hcl)

theorem TableLen_mapColIdx (t : Table) (name : Str) (f : ℕ → Val → Val) (n : ℕ)
    (h : TableLen t n) :
    TableLen (mapColIdx t name f) n := by
  rw [mapColIdx_eq_updCol]
  refine TableLen_updCol t name _ n h (fun c hcl => ?_)
  rw [List.length_mapIdx]
  exact hcl

theorem TableLen_tagRows (t : Table) (mask : List Bool) (tag : Str) (n : ℕ)
    (h : TableLen t n) :
    TableLen (tagRows t mask tag) n :=
  TableLen_mapColIdx t nmFlags _ n h

theorem getCol_length (t : Table) (nm : Str) (c : List Val) (n : ℕ)
    (h : TableLen t n) (hc : getCol t nm = some c) : c.length = n := by
  unfold getCol at hc
  cases hf : (t.find? (fun p => p.1 == nm)) with
  | none => rw [hf] at hc; cases hc
  | some v =>
    rw [hf] at hc
    have hm := List.mem_of_find?_eq_some hf
    cases hc
    exact h v hm

theorem names_updCol (t : Table) (name : Str) (g : List Val → List Val) :
    names (updCol t name g) = names t := by
  unfold names updCol
  rw [List.map_map]
  apply List.map_congr_left
  intro p _
  by_cases hc : p.1 = name <;> simp [hc]

theorem names_setCol (t : Table) (name : Str) (col : List Val) :
    names (setCol t name col) =
      if hasCol t name then names t else names t ++ [name] := by
  rw [setCol_eq]
  cases hb : hasCol t name with
  | true => simp [names_updCol]
  | false => simp [names]

theorem hasCol_eq_names (t : Table) (nm : Str) :
    hasCol t nm = (names t).any (fun c => c == nm) := by
  induction t with
  | nil => rfl
  | cons p rest ih =>
    simp only [hasCol, names, List.map_cons, List.any_cons]
    unfold hasCol names at ih
    rw [ih]

theorem hasCol_setCol (t : Table) (name : Str) (col : List Val) (nm : Str)
    (h : hasCol t nm = true) : hasCol (setCol t name col) nm = true := by
  rw [hasCol_eq_names, names_setCol]
  rw [hasCol_eq_names] at h
  cases hb : hasCol t name with
  | true => simpa using h
  | false =>
    simp only [Bool.false_eq_true, if_false, List.any_append, Bool.or_eq_true]
    exact Or.inl h

theorem hasCol_mapCol (t : Table) (name : Str) (f : Val → Val) (nm : Str) :
    hasCol (mapCol t name f) nm = hasCol t nm := by
  rw [hasCol_eq_names, hasCol_eq_names, mapCol_eq_updCol, names_updCol]

theorem hasCol_mapColIdx (t : Table) (name : Str) (f : ℕ → Val → Val) (nm : Str) :
    hasCol (mapColIdx t name f) nm = hasCol t nm := by
  rw [hasCol_eq_names, hasCol_eq_names, mapColIdx_eq_updCol, names_updCol]

theorem hasCol_tagRows (t : Table) (mask : List Bool) (tag : Str) (nm : Str) :
    hasCol (tagRows t mask tag) nm = hasCol t nm :=
  hasCol_mapColIdx t nmFlags _ nm

theorem getCol_foldl_mapCol_ne (fields : List Str) (t : Table) (f : Val → Val)
    (nm : Str) (h : ∀ c ∈ fields, ¬ c = nm) :
    getCol (fields.foldl (fun t c => mapCol t c f) t) nm = getCol t nm := by
  induction fields generalizing t with
  | nil => rfl
  | cons c rest ih =>
    simp only [List.foldl_cons]
    rw [ih _ (fun d hd => h d (List.mem_cons_of_mem c hd))]
    exact getCol_mapCol_ne t c nm f (h c (List.mem_cons_self c rest))

theorem TableLen_foldl_mapCol (fields : List Str) (t : Table) (f : Val → Val)
    (n : ℕ) (h : TableLen t n) :
    TableLen (fields.foldl (fun t c => mapCol t c f) t) n := by
  induction fields generalizing t with
  | nil => exact h
  | cons c rest ih =>
    simp only [List.foldl_cons]
    exact ih _ (TableLen_mapCol t c f n h)

theorem TableLen_foldl_setCol (l : RawTable) (t : Table) (n : ℕ)
    (h : TableLen t n) (hl : ∀ p ∈ l, p.2.length = n) :
    TableLen (l.foldl (fun t p => setCol t p.1 (p.2.map Val.vs)) t) n := by
  induction l generalizing t with
  | nil => exact h
  | cons p rest ih =>
    simp only [List.foldl_cons]
    refine ih _ (TableLen_setCol t p.1 _ n h ?_) (fun q hq => hl q (List.mem_cons_of_mem p hq))
    rw [List.length_map]
    exact hl p (List.mem_cons_self p rest)

theorem hasCol_foldl_mapCol (fields : List Str) (t : Table) (f : Val → Val)
    (nm : Str) : hasCol (fields.foldl (fun t c => mapCol t c f) t) nm = hasCol t nm := by
  induction fields generalizing t with
  | nil => rfl
  | cons c rest ih =>
    simp only [List.foldl_cons]
    rw [ih, hasCol_mapCol]

theorem hasCol_foldl_setCol (l : RawTable) (t : Table) (nm : Str)
    (h : hasCol t nm = true) :
    hasCol (l.foldl (fun t p => setCol t p.1 (p.2.map Val.vs)) t) nm = true := by
  induction l generalizing t with
  | nil => exact h
  | cons p rest ih =>
    simp only [List.foldl_cons]
    exact ih _ (hasCol_setCol t p.1 _ nm h)

theorem stdN_eq (df : RawTable) : stdN df = rawRows df := by
  cases df with
  | nil => rfl
  | cons p rest => rfl

theorem stdDff_len (df : RawTable) (hwf : WfRaw df) :
    ∀ p ∈ stdDff df, p.2.length = stdN df := by
  intro p hp
  rcases List.mem_map.mp hp with ⟨q, hq, rfl⟩
  rw [stdN_eq]
  exact hwf.1 q hq

theorem rawGetCol_col (df : RawTable) (src : Str) (hwf : WfRaw df)
    (hs : (stdCols df).any (fun c => c == src) = true) :
    ∃ col, rawGetCol (stdDff df) src = some col ∧ col.length = stdN df := by
  unfold stdCols at hs
  rcases List.any_eq_true.mp hs with ⟨nm, hnm, hpred⟩
  rcases List.mem_map.mp hnm with ⟨q, hq, rfl⟩
  have hfind : ((stdDff df).find? (fun p => p.1 == src)).isSome = true :=
    List.find?_isSome.mpr ⟨q, hq, hpred⟩
  cases hf : ((stdDff df).find? (fun p => p.1 == src)) with
  | none => rw [hf] at hfind; cases hfind
  | some v =>
    refine ⟨v.2, ?_, ?_⟩
    · simp [rawGetCol, hf]
    · exact stdDff_len df hwf v (List.mem_of_find?_eq_some hf)

theorem names_stdOut0 (df : RawTable) (um : List (Str × Str)) :
    names (stdOut0 df um) = REQUIRED_COLUMNS := by
  unfold names stdOut0
  rw [List.map_map]
  conv_rhs => rw [← List.map_id REQUIRED_COLUMNS]
  apply List.map_congr_left
  intro c _
  simp only [Function.comp_apply, id_eq]
  cases h : lookupAssoc (stdMapping df um) c with
  | none => rfl
  | some src =>
    dsimp only
    split <;> rfl

theorem TableLen_stdOut0 (df : RawTable) (um : List (Str × Str)) (hwf : WfRaw df) :
    TableLen (stdOut0 df um) (stdN df) := by
  intro p hp
  unfold stdOut0 at hp
  rcases List.mem_map.mp hp with ⟨c, _, rfl⟩
  cases h : lookupAssoc (stdMapping df um) c with
  | none => simp
  | some src =>
    dsimp only
    by_cases hcond : (¬ src = [] ∧ (stdCols df).any (fun c => c == src) = true)
    · rcases rawGetCol_col df src hwf hcond.2 with ⟨col, hcol, hlen⟩
      rw [if_pos hcond]
      simp [hcol, hlen]
    · rw [if_neg hcond]
      simp

theorem NamesOk_stdOut0 (df : RawTable) (um : List (Str × Str)) :
    NamesOk (stdOut0 df um) := by
  constructor
  · rw [names_stdOut0]; decide
  · rw [names_stdOut0]; decide

theorem NamesOk_setCol (t : Table) (name : Str) (col : List Val)
    (h : NamesOk t) : NamesOk (setCol t name col) := by
  rcases h with ⟨h1, h2⟩
  rw [NamesOk, names_setCol]
  cases hb : hasCol t name with
  | true => exact ⟨by simpa using h1, by simpa using h2⟩
  | false =>
    simp only [Bool.false_eq_true, if_false, List.length_append]
    refine ⟨le_trans h1 (Nat.le_add_right _ _), ?_⟩
    rw [List.take_append_of_le_length h1]
    exact h2

theorem NamesOk_updCol (t : Table) (name : Str) (g : List Val → List Val)
    (h : NamesOk t) : NamesOk (updCol t name g) := by
  rw [NamesOk, names_updCol]
  exact h

theorem NamesOk_mapCol (t : Table) (name : Str) (f : Val → Val)
    (h : NamesOk t) : NamesOk (mapCol t name f) := by
  rw [mapCol_eq_updCol]
  exact NamesOk_updCol t name _ h

theorem NamesOk_mapColIdx (t : Table) (name : Str) (f : ℕ → Val → Val)
    (h : NamesOk t) : NamesOk (mapColIdx t name f) := by
  rw [mapColIdx_eq_updCol]
  exact NamesOk_updCol t name _ h

theorem NamesOk_tagRows (t : Table) (mask : List Bool) (tag : Str)
    (h : NamesOk t) : NamesOk (tagRows t mask tag) :=
  NamesOk_mapColIdx t nmFlags _ h

theorem NamesOk_foldl_setCol (l : RawTable) (t : Table)
    (h : NamesOk t) :
    NamesOk (l.foldl (fun t p => setCol t p.1 (p.2.map Val.vs)) t) := by
  induction l generalizing t with
  | nil => exact h
  | cons p rest ih =>
    simp only [List.foldl_cons]
    exact ih _ (NamesOk_setCol t p.1 _ h)

theorem NamesOk_foldl_mapCol (fields : List Str) (t : Table) (f : Val → Val)
    (h : NamesOk t) :
    NamesOk (fields.foldl (fun t c => mapCol t c f) t) := by
  induction fields generalizing t with
  | nil => exact h
  | cons c rest ih =>
    simp only [List.foldl_cons]
    exact ih _ (NamesOk_mapCol t c f h)

theorem NamesOk_stdOut1 (df : RawTable) (um : List (Str × Str)) :
    NamesOk (stdOut1 df um) :=
  NamesOk_foldl_setCol _ _ (NamesOk_stdOut0 df um)

theorem NamesOk_stdOut5 (df : RawTable) (src ts : Str) (um : List (Str × Str)) :
    NamesOk (stdOut5 df src ts um) :=
  NamesOk_setCol _ _ _ (NamesOk_setCol _ _ _ (NamesOk_setCol _ _ _
    (NamesOk_setCol _ _ _ (NamesOk_stdOut1 df um))))

theorem NamesOk_stdOut6 (df : RawTable) (src ts : Str) (um : List (Str × Str)) :
    NamesOk (stdOut6 df src ts um) :=
  NamesOk_foldl_mapCol _ _ _ (NamesOk_stdOut5 df src ts um)

theorem stdOut8_eq (df : RawTable) (src ts : Str) (um : List (Str × Str)) :
    stdOut8 df src ts um =
      if (stdCoerced df src ts um).countP (fun o => o.isNone) ≠ 0 then
        tagRows (setCol (stdOut6 df src ts um) nmNumber
            ((stdCoerced df src ts um).map (fun o => Val.vq (o.getD 0))))
          ((stdCoerced df src ts um).map (fun o => o.isNone)) tagBadNumber
      else
        setCol (stdOut6 df src ts um) nmNumber
          ((stdCoerced df src ts um).map (fun o => Val.vq (o.getD 0))) := rfl

theorem stdOut10_eq (df : RawTable) (src ts : Str) (um : List (Str × Str)) :
    stdOut10 df src ts um =
      if (stdParsed df src ts um).countP (fun o => o.isNone) ≠ 0 then
        tagRows (setCol (stdOut8 df src ts um) nmDt
            ((stdParsed df src ts um).map Val.vdt))
          ((stdParsed df src ts um).map (fun o => o.isNone)) tagBadDate
      else
        setCol (stdOut8 df src ts um) nmDt ((stdParsed df src ts um).map Val.vdt) := rfl

theorem NamesOk_stdOut8 (df : RawTable) (src ts : Str) (um : List (Str × Str)) :
    NamesOk (stdOut8 df src ts um) := by
  rw [stdOut8_eq]
  split
  · exact NamesOk_tagRows _ _ _ (NamesOk_setCol _ _ _ (NamesOk_stdOut6 df src ts um))
  · exact NamesOk_setCol _ _ _ (NamesOk_stdOut6 df src ts um)

theorem NamesOk_stdOut10 (df : RawTable) (src ts : Str) (um : List (Str × Str)) :
    NamesOk (stdOut10 df src ts um) := by
  rw [stdOut10_eq]
  split
  · exact NamesOk_tagRows _ _ _ (NamesOk_setCol _ _ _ (NamesOk_stdOut8 df src ts um))
  · exact NamesOk_setCol _ _ _ (NamesOk_stdOut8 df src ts um)

theorem NamesOk_stdOut11 (df : RawTable) (src ts : Str) (um : List (Str × Str)) :
    NamesOk (stdOut11 df src ts um) := by
  unfold stdOut11
  split
  · exact NamesOk_tagRows _ _ _ (NamesOk_stdOut10 df src ts um)
  · exact NamesOk_stdOut10 df src ts um

theorem hasCol_of_NamesOk (t : Table) (nm : Str) (h : NamesOk t)
    (hc : nm ∈ REQUIRED_COLUMNS) : hasCol t nm = true := by
  rw [hasCol_eq_names]
  rw [← h.2] at hc
  have : nm ∈ names t := List.mem_of_mem_take hc
  exact List.any_eq_true.mpr ⟨nm, this, by simp⟩

theorem getCol_isSome_of_hasCol (t : Table) (nm : Str) (h : hasCol t nm = true) :
    ∃ c, getCol t nm = some c := by
  unfold hasCol at h
  unfold getCol
  rcases List.any_eq_true.mp h with ⟨p, hp, hpred⟩
  have hfind : ((t.find? fun p => p.1 == nm)).isSome = true :=
    List.find?_isSome.mpr ⟨p, hp, hpred⟩
  cases hf : (t.find? fun p => p.1 == nm) with
  | none => rw [hf] at hfind; cases hfind
  | some v => exact ⟨v.2, by simp [hf]⟩

theorem TableLen_stdOut1 (df : RawTable) (um : List (Str × Str)) (hwf : WfRaw df) :
    TableLen (stdOut1 df um) (stdN df) :=
  TableLen_foldl_setCol _ _ _ (TableLen_stdOut0 df um hwf)
    (fun p hp => stdDff_len df hwf p (List.mem_of_mem_filter hp))

theorem TableLen_stdOut5 (df : RawTable) (src ts : Str) (um : List (Str × Str))
    (hwf : WfRaw df) : TableLen (stdOut5 df src ts um) (stdN df) := by
  refine TableLen_setCol _ _ _ _ (TableLen_setCol _ _ _ _ (TableLen_setCol _ _ _ _
    (TableLen_setCol _ _ _ _ (TableLen_stdOut1 df um hwf) ?_) ?_) ?_) ?_
  · rw [List.length_map, List.length_range]
  · rw [List.length_replicate]
  · rw [List.length_replicate]
  · rw [List.length_replicate]

theorem TableLen_stdOut6 (df : RawTable) (src ts : Str) (um : List (Str × Str))
    (hwf : WfRaw df) : TableLen (stdOut6 df src ts um) (stdN df) :=
  TableLen_foldl_mapCol _ _ _ _ (TableLen_stdOut5 df src ts um hwf)

theorem len_stdNumRaw (df : RawTable) (src ts : Str) (um : List (Str × Str))
    (hwf : WfRaw df) : (stdNumRaw df src ts um).length = stdN df := by
  unfold stdNumRaw
  have hasc : hasCol (stdOut6 df src ts um) nmNumber = true :=
    hasCol_of_NamesOk _ _ (NamesOk_stdOut6 df src ts um) (by decide)
  rcases getCol_isSome_of_hasCol _ _ hasc with ⟨c, hc⟩
  rw [hc]
  exact getCol_length _ _ c _ (TableLen_stdOut6 df src ts um hwf) hc

theorem len_stdCoerced (df : RawTable) (src ts : Str) (um : List (Str × Str))
    (hwf : WfRaw df) : (stdCoerced df src ts um).length = stdN df := by
  unfold stdCoerced
  rw [List.length_map]
  exact len_stdNumRaw df src ts um hwf

theorem TableLen_stdOut8 (df : RawTable) (src ts : Str) (um : List (Str × Str))
    (hwf : WfRaw df) : TableLen (stdOut8 df src ts um) (stdN df) := by
  rw [stdOut8_eq]
  have hset : TableLen (setCol (stdOut6 df src ts um) nmNumber
      ((stdCoerced df src ts um).map (fun o => Val.vq (o.getD 0)))) (stdN df) := by
    refine TableLen_setCol _ _ _ _ (TableLen_stdOut6 df src ts um hwf) ?_
    rw [List.length_map]
    exact len_stdCoerced df src ts um hwf
  split
  · exact TableLen_tagRows _ _ _ _ hset
  · exact hset

theorem len_stdParsed (df : RawTable) (src ts : Str) (um : List (Str × Str))
    (hwf : WfRaw df) : (stdParsed df src ts um).length = stdN df := by
  unfold stdParsed
  rw [List.length_map]
  have hasc : hasCol (stdOut8 df src ts um) nmDeliverdate = true :=
    hasCol_of_NamesOk _ _ (NamesOk_stdOut8 df src ts um) (by decide)
  rcases getCol_isSome_of_hasCol _ _ hasc with ⟨c, hc⟩
  rw [hc]
  exact getCol_length _ _ c _ (TableLen_stdOut8 df src ts um hwf) hc

theorem TableLen_stdOut10 (df : RawTable) (src ts : Str) (um : List (Str × Str))
    (hwf : WfRaw df) : TableLen (stdOut10 df src ts um) (stdN df) := by
  rw [stdOut10_eq]
  have hset : TableLen (setCol (stdOut8 df src ts um) nmDt
      ((stdParsed df src ts um).map Val.vdt)) (stdN df) := by
    refine TableLen_setCol _ _ _ _ (TableLen_stdOut8 df src ts um hwf) ?_
    rw [List.length_map]
    exact len_stdParsed df src ts um hwf
  split
  · exact TableLen_tagRows _ _ _ _ hset
  · exact hset

theorem TableLen_stdOut11 (df : RawTable) (src ts : Str) (um : List (Str × Str))
    (hwf : WfRaw df) : TableLen (stdOut11 df src ts um) (stdN df) := by
  unfold stdOut11
  split
  · exact TableLen_tagRows _ _ _ _ (TableLen_stdOut10 df src ts um hwf)
  · exact TableLen_stdOut10 df src ts um hwf

theorem getCol_tagRows_flags (t : Table) (mask : List Bool) (tag : Str) :
    getCol (tagRows t mask tag) nmFlags = (getCol t nmFlags).map (tagStep mask tag) :=
  getCol_mapColIdx_self t nmFlags _

theorem getCol_stdOut6_flags (df : RawTable) (src ts : Str) (um : List (Str × Str)) :
    getCol (stdOut6 df src ts um) nmFlags =
      some (List.replicate (stdN df) (Val.vs [])) := by
  unfold stdOut6
  rw [getCol_foldl_mapCol_ne _ _ _ _ (by decide)]
  unfold stdOut5
  rw [getCol_setCol_self]

theorem getCol_stdOut8_flags (df : RawTable) (src ts : Str) (um : List (Str × Str)) :
    getCol (stdOut8 df src ts um) nmFlags = some (stdFlags8 df src ts um) := by
  rw [stdOut8_eq]
  unfold stdFlags8
  split
  · rw [getCol_tagRows_flags, getCol_setCol_ne _ _ _ _ (by decide),
      getCol_stdOut6_flags]
    rfl
  · rw [getCol_setCol_ne _ _ _ _ (by decide), getCol_stdOut6_flags]

theorem getCol_stdOut10_flags (df : RawTable) (src ts : Str) (um : List (Str × Str)) :
    getCol (stdOut10 df src ts um) nmFlags = some (stdFlags10 df src ts um) := by
  rw [stdOut10_eq]
  unfold stdFlags10
  split
  · rw [getCol_tagRows_flags, getCol_setCol_ne _ _ _ _ (by decide),
      getCol_stdOut8_flags]
    rfl
  · rw [getCol_setCol_ne _ _ _ _ (by decide), getCol_stdOut8_flags]

theorem getCol_stdOut11_flags (df : RawTable) (src ts : Str) (um : List (Str × Str)) :
    getCol (stdOut11 df src ts um) nmFlags = some (stdFlags11 df src ts um) := by
  unfold stdOut11 stdFlags11
  split
  · rw [getCol_tagRows_flags, getCol_stdOut10_flags]
    rfl
  · rw [getCol_stdOut10_flags]

theorem getCol_stdOut8_number (df : RawTable) (src ts : Str) (um : List (Str × Str)) :
    getCol (stdOut8 df src ts um) nmNumber =
      some ((stdCoerced df src ts um).map (fun o => Val.vq (o.getD 0))) := by
  rw [stdOut8_eq]
  split
  · rw [getCol_tagRows_ne _ _ _ _ (by decide), getCol_setCol_self]
  · rw [getCol_setCol_self]

theorem getCol_stdOut10_number (df : RawTable) (src ts : Str) (um : List (Str × Str)) :
    getCol (stdOut10 df src ts um) nmNumber =
      some ((stdCoerced df src ts um).map (fun o => Val.vq (o.getD 0))) := by
  rw [stdOut10_eq]
  split
  · rw [getCol_tagRows_ne _ _ _ _ (by decide), getCol_setCol_ne _ _ _ _ (by decide),
      getCol_stdOut8_number]
  · rw [getCol_setCol_ne _ _ _ _ (by decide), getCol_stdOut8_number]

theorem getCol_stdOut11_number (df : RawTable) (src ts : Str) (um : List (Str × Str)) :
    getCol (stdOut11 df src ts um) nmNumber =
      some ((stdCoerced df src ts um).map (fun o => Val.vq (o.getD 0))) := by
  unfold stdOut11
  split
  · rw [getCol_tagRows_ne _ _ _ _ (by decide), getCol_stdOut10_number]
  · rw [getCol_stdOut10_number]

theorem getCol_stdOut10_dt (df : RawTable) (src ts : Str) (um : List (Str × Str)) :
    getCol (stdOut10 df src ts um) nmDt =
      some ((stdParsed df src ts um).map Val.vdt) := by
  rw [stdOut10_eq]
  split
  · rw [getCol_tagRows_ne _ _ _ _ (by decide), getCol_setCol_self]
  · rw [getCol_setCol_self]

theorem getCol_stdOut11_dt (df : RawTable) (src ts : Str) (um : List (Str × Str)) :
    getCol (stdOut11 df src ts um) nmDt =
      some ((stdParsed df src ts um).map Val.vdt) := by
  unfold stdOut11
  split
  · rw [getCol_tagRows_ne _ _ _ _ (by decide), getCol_stdOut10_dt]
  · rw [getCol_stdOut10_dt]

/-- C10: for every non-empty well-formed input table, every column of
the standardized table has exactly as many rows as the input, and the
report's `dropped_rows` is 0 — no processing step removes a row. -/
theorem rows_preserved (df : RawTable) (src ts : Str) (um : List (Str × Str))
    (hwf : WfRaw df) (h1 : ¬ df = []) (h2 : ¬ rawRows df = 0) :
    (∀ p ∈ (standardize_dataset df src ts um).1, p.2.length = rawRows df) ∧
    (standardize_dataset df src ts um).2.dropped_rows = 0 := by
  unfold standardize_dataset
  rw [if_neg (by
    intro hor
    rcases hor with h | h
    · exact h1 h
    · exact h2 h)]
  constructor
  · intro p hp
    rw [← stdN_eq df]
    exact TableLen_stdOut11 df src ts um hwf p hp
  · rfl

/-- Witness for C10 at a one-column, one-row table. -/
theorem rows_preserved_witness :
    (∀ p ∈ (standardize_dataset [((r"A").toList, [(r"x").toList])] [] [] []).1,
      p.2.length = rawRows [((r"A").toList, [(r"x").toList])]) ∧
    (standardize_dataset [((r"A").toList, [(r"x").toList])] [] [] []).2.dropped_rows
      = 0 :=
  rows_preserved [((r"A").toList, [(r"x").toList])] [] [] []
    ⟨by decide, by decide⟩ (by decide) (by decide)

/-- C5: on every non-empty well-formed input, a non-`Number` minimum-import
field is listed in `missing_required` exactly when every cell of
its standardized column trims to the empty string; a column with one
non-empty value anywhere is never reported missing, and `Number` itself
is never listed. -/
theorem missing_required_iff (df : RawTable) (src ts : Str) (um : List (Str × Str))
    (hwf : WfRaw df) (h1 : ¬ df = []) (h2 : ¬ rawRows df = 0)
    (c : Str) (hc : c ∈ MIN_IMPORT_COLUMNS) (hcn : ¬ c = nmNumber) :
    (c ∈ (standardize_dataset df src ts um).2.missing_required ↔
      ∀ v ∈ (getCol (standardize_dataset df src ts um).1 c).getD [],
        strip (valToStr v) = []) ∧
    ¬ nmNumber ∈ (standardize_dataset df src ts um).2.missing_required := by
  unfold standardize_dataset
  rw [if_neg (by
    intro hor
    rcases hor with h | h
    · exact h1 h
    · exact h2 h)]
  have hsub : ∀ x ∈ MIN_IMPORT_COLUMNS, x ∈ REQUIRED_COLUMNS := by decide
  have hhasc : hasCol (stdOut11 df src ts um) c = true :=
    hasCol_of_NamesOk _ _ (NamesOk_stdOut11 df src ts um) (hsub c hc)
  have hhasn : hasCol (stdOut11 df src ts um) nmNumber = true :=
    hasCol_of_NamesOk _ _ (NamesOk_stdOut11 df src ts um) (by decide)
  have hbne : (c == nmNumber) = false := beq_eq_false_iff_ne.mpr hcn
  constructor
  · show c ∈ stdMissing df src ts um ↔ _
    unfold stdMissing
    rw [List.mem_filter]
    constructor
    · rintro ⟨_, hpred⟩
      rw [if_neg (fun hn => hn hhasc), if_neg (by rw [hbne]; exact Bool.false_ne_true)]
        at hpred
      intro v hv
      exact eq_of_beq (List.all_eq_true.mp hpred v hv)
    · intro hall
      refine ⟨hc, ?_⟩
      rw [if_neg (fun hn => hn hhasc), if_neg (by rw [hbne]; exact Bool.false_ne_true)]
      exact List.all_eq_true.mpr (fun v hv => beq_iff_eq.mpr (hall v hv))
  · show ¬ nmNumber ∈ stdMissing df src ts um
    unfold stdMissing
    intro hmem
    rcases List.mem_filter.mp hmem with ⟨_, hpred⟩
    rw [if_neg (fun hn => hn hhasn), if_pos (by simp)] at hpred
    exact Bool.false_ne_true hpred

/-- Witness for C5: a table whose `SupplierID` column is entirely blank. -/
theorem missing_required_iff_witness :
    ((r"SupplierID").toList ∈
        (standardize_dataset [((r"SupplierID").toList, [[' ']])] [] [] []).2.missing_required ↔
      ∀ v ∈ (getCol (standardize_dataset [((r"SupplierID").toList, [[' ']])] [] [] []).1
          ((r"SupplierID").toList)).getD [],
        strip (valToStr v) = []) ∧
    ¬ nmNumber ∈
      (standardize_dataset [((r"SupplierID").toList, [[' ']])] [] [] []).2.missing_required :=
  missing_required_iff [((r"SupplierID").toList, [[' ']])] [] [] []
    ⟨by decide, by decide⟩ (by decide) (by decide)
    ((r"SupplierID").toList) (by decide) (by decide)

theorem rstripPipe_of_getLast (s : Str) (c : Char) (h : s.getLast? = some c)
    (hc : ¬ c = '|') :
    (s.reverse.dropWhile (fun c => c = '|')).reverse = s := by
  cases hr : s.reverse with
  | nil =>
    have : s = [] := by simpa using congrArg List.reverse hr
    subst this
    cases h
  | cons a t =>
    have ha : a = c := by
      have := List.head?_reverse s
      rw [hr] at this
      simp only [List.head?] at this
      rw [h] at this
      exact Option.some.inj this
    rw [List.dropWhile_cons_of_neg (by simp [ha, hc])]
    rw [← hr, List.reverse_reverse]

theorem lstrip_keeps (a : Str) (th : Char) (tt : Str) (hth : ¬ th = '|') :
    ∃ a2, (a ++ th :: tt).dropWhile (fun c => c = '|') = a2 ++ th :: tt := by
  rw [List.dropWhile_append]
  by_cases he : ((a.dropWhile (fun c => c = '|')).isEmpty) = true
  · rw [if_pos he, List.dropWhile_cons_of_neg (by simp [hth])]
    exact ⟨[], by simp⟩
  · rw [if_neg he]
    exact ⟨a.dropWhile (fun c => c = '|'), rfl⟩

theorem addTag_intro (fl tag : Str) (hne : tag ≠ [])
    (hnp : ∀ x ∈ tag, ¬ x = '|') :
    tagMem tag (addTag fl tag) := by
  obtain ⟨th, tt, rfl⟩ : ∃ th tt, tag = th :: tt := by
    cases tag with
    | nil => exact absurd rfl hne
    | cons h t => exact ⟨h, t, rfl⟩
  have hth : ¬ th = '|' := hnp th (by simp)
  rcases List.eq_nil_or_concat (th :: tt) with h | ⟨t', c, hc⟩
  · cases h
  · have hcmem : c ∈ th :: tt := by
      rw [hc, List.concat_eq_append]
      simp
    have hcnp : ¬ c = '|' := hnp c hcmem
    unfold addTag stripPipes
    have hl : ∃ a2,
        (fl ++ '|' :: th :: tt).dropWhile (fun c => c = '|') = a2 ++ th :: tt := by
      rcases lstrip_keeps (fl ++ ['|']) th tt hth with ⟨a2, ha2⟩
      refine ⟨a2, ?_⟩
      rw [← ha2]
      congr 1
      simp
    rcases hl with ⟨a2, ha2⟩
    rw [ha2]
    have hlast : (a2 ++ th :: tt).getLast? = some c := by
      rw [hc, List.concat_eq_append, ← List.append_assoc]
      exact List.getLast?_concat _
    rw [rstripPipe_of_getLast _ c hlast hcnp]
    exact ⟨a2, [], by simp⟩

theorem addTag_mono (fl tag tag2 : Str) (h : tagMem tag fl)
    (hne : tag ≠ []) (hnp : ∀ x ∈ tag, ¬ x = '|')
    (hne2 : tag2 ≠ []) (hnp2 : ∀ x ∈ tag2, ¬ x = '|') :
    tagMem tag (addTag fl tag2) := by
  obtain ⟨x, y, rfl⟩ := h
  obtain ⟨th, tt, rfl⟩ : ∃ th tt, tag = th :: tt := by
    cases tag with
    | nil => exact absurd rfl hne
    | cons h t => exact ⟨h, t, rfl⟩
  have hth : ¬ th = '|' := hnp th (by simp)
  rcases List.eq_nil_or_concat tag2 with h2 | ⟨t2', c2, hc2⟩
  · exact absurd h2 hne2
  have hc2np : ¬ c2 = '|' := by
    refine hnp2 c2 ?_
    rw [hc2, List.concat_eq_append]
    simp
  unfold addTag stripPipes
  have hshape : (x ++ (th :: tt) ++ y) ++ '|' :: tag2 =
      x ++ th :: (tt ++ (y ++ '|' :: tag2)) := by simp
  rw [hshape]
  rcases lstrip_keeps x th (tt ++ (y ++ '|' :: tag2)) hth with ⟨a2, ha2⟩
  rw [ha2]
  have hlast : (a2 ++ th :: (tt ++ (y ++ '|' :: tag2))).getLast? = some c2 := by
    rw [hc2, List.concat_eq_append]
    have hre : a2 ++ th :: (tt ++ (y ++ '|' :: (t2' ++ [c2]))) =
        (a2 ++ th :: (tt ++ (y ++ '|' :: t2'))) ++ [c2] := by simp
    rw [hre]
    exact List.getLast?_concat _
  rw [rstripPipe_of_getLast _ c2 hlast hc2np]
  exact ⟨a2, y ++ '|' :: tag2, by simp⟩

theorem mem_of_getElem?_some {α : Type} (l : List α) (i : ℕ) (a : α)
    (h : l[i]? = some a) : a ∈ l := by
  rcases List.getElem?_eq_some_iff.mp h with ⟨hlt, rfl⟩
  exact List.getElem_mem hlt

theorem len_tagStep (mask : List Bool) (tag : Str) (c : List Val) :
    (tagStep mask tag c).length = c.length := by
  unfold tagStep
  exact List.length_mapIdx

theorem tagStep_getD (mask : List Bool) (tag : Str) (c : List Val) (i : ℕ)
    (hi : i < c.length) :
    (tagStep mask tag c).getD i (Val.vs []) =
      if mask.getD i false then Val.vs (addTag (valToStr (c.getD i (Val.vs []))) tag)
      else c.getD i (Val.vs []) := by
  unfold tagStep
  simp only [List.getD_eq_getElem?_getD, List.getElem?_mapIdx,
    List.getElem?_eq_getElem hi, Option.map_some', Option.getD_some]

theorem tagMem_tagStep_pres (mask : List Bool) (tag tag2 : Str) (c : List Val)
    (i : ℕ) (hi : i < c.length)
    (h : tagMem tag (valToStr (c.getD i (Val.vs []))))
    (hne : tag ≠ []) (hnp : ∀ x ∈ tag, ¬ x = '|')
    (hne2 : tag2 ≠ []) (hnp2 : ∀ x ∈ tag2, ¬ x = '|') :
    tagMem tag (valToStr ((tagStep mask tag2 c).getD i (Val.vs []))) := by
  rw [tagStep_getD mask tag2 c i hi]
  by_cases hb : mask.getD i false = true
  · rw [if_pos hb]
    exact addTag_mono _ _ _ h hne hnp hne2 hnp2
  · rw [if_neg hb]
    exact h

theorem len_stdFlags8 (df : RawTable) (src ts : Str) (um : List (Str × Str)) :
    (stdFlags8 df src ts um).length = stdN df := by
  unfold stdFlags8
  split
  · rw [len_tagStep, List.length_replicate]
  · rw [List.length_replicate]

theorem len_stdFlags10 (df : RawTable) (src ts : Str) (um : List (Str × Str)) :
    (stdFlags10 df src ts um).length = stdN df := by
  unfold stdFlags10
  split
  · rw [len_tagStep, len_stdFlags8]
  · rw [len_stdFlags8]

/-- C1 (amended): the raw strings fed to coercion are exactly the
`Number` column `stdNumRaw` of the assembled frame (one per input row);
every `Number` cell of the standardized table is the total coercion of
its row's raw string — the parsed decimal when the string parses
(which may be negative), exactly `0.0` otherwise — it is never null,
and every row whose raw string fails to parse carries the `bad_number`
tag in the quality-flags column of the output.  (The claimed invariant
`Number ≥ 0` is dropped: a leading minus sign survives the sanitizing
regex.) -/
theorem number_coercion_amended (df : RawTable) (src ts : Str)
    (um : List (Str × Str)) (hwf : WfRaw df) (h1 : ¬ df = [])
    (h2 : ¬ rawRows df = 0) :
    (stdNumRaw df src ts um).length = rawRows df ∧
    getCol (standardize_dataset df src ts um).1 nmNumber =
      some ((stdNumRaw df src ts um).map
        (fun v => Val.vq ((to_float (valToStr v)).getD 0))) ∧
    ∀ fl, getCol (standardize_dataset df src ts um).1 nmFlags = some fl →
      ∀ i, i < rawRows df →
        (to_float (valToStr ((stdNumRaw df src ts um).getD i (Val.vs [])))).isNone
          = true →
        tagMem tagBadNumber (valToStr (fl.getD i (Val.vs []))) := by
  have hcond : ¬ (df = [] ∨ rawRows df = 0) := by
    intro hor
    rcases hor with h | h
    · exact h1 h
    · exact h2 h
  refine ⟨?_, ?_, ?_⟩
  · rw [len_stdNumRaw df src ts um hwf, stdN_eq]
  · unfold standardize_dataset
    rw [if_neg hcond]
    show getCol (stdOut11 df src ts um) nmNumber = _
    rw [getCol_stdOut11_number]
    unfold stdCoerced
    rw [List.map_map]
    rfl
  · intro fl hfl
    have hfl11 : getCol (standardize_dataset df src ts um).1 nmFlags =
        some (stdFlags11 df src ts um) := by
      unfold standardize_dataset
      rw [if_neg hcond]
      show getCol (stdOut11 df src ts um) nmFlags = _
      exact getCol_stdOut11_flags df src ts um
    rw [hfl11] at hfl
    cases Option.some.inj hfl
    intro i hi hnone
    have hn : i < stdN df := by rw [stdN_eq]; exact hi
    have hilen : i < (stdNumRaw df src ts um).length := by
      rw [len_stdNumRaw df src ts um hwf]; exact hn
    -- the coerced entry at i is the failing parse
    have hco : (stdCoerced df src ts um)[i]? =
        some (to_float (valToStr ((stdNumRaw df src ts um).getD i (Val.vs [])))) := by
      unfold stdCoerced
      rw [List.getElem?_map, List.getElem?_eq_getElem hilen]
      rw [List.getD_eq_getElem?_getD, List.getElem?_eq_getElem hilen]
      rfl
    -- the bad_number pass fired
    have hcnt : (stdCoerced df src ts um).countP (fun o => o.isNone) ≠ 0 := by
      have hmem : (to_float (valToStr ((stdNumRaw df src ts um).getD i (Val.vs [])))) ∈
          stdCoerced df src ts um := mem_of_getElem?_some _ i _ hco
      have hpos : 0 < (stdCoerced df src ts um).countP (fun o => o.isNone) :=
        List.countP_pos_iff.mpr ⟨_, hmem, hnone⟩
      exact Nat.pos_iff_ne_zero.mp hpos
    -- the mask selects row i
    have hmask : ((stdCoerced df src ts um).map (fun o => o.isNone)).getD i false
        = true := by
      rw [List.getD_eq_getElem?_getD, List.getElem?_map, hco]
      simpa using hnone
    -- the bad_number tag is present after the first pass
    have h8 : tagMem tagBadNumber
        (valToStr ((stdFlags8 df src ts um).getD i (Val.vs []))) := by
      unfold stdFlags8
      rw [if_pos hcnt]
      rw [tagStep_getD _ _ _ i (by rw [List.length_replicate]; exact hn)]
      rw [if_pos (by rw [hmask])]
      exact addTag_intro _ tagBadNumber (by decide) (by decide)
    -- and survives the bad_date pass
    have h10 : tagMem tagBadNumber
        (valToStr ((stdFlags10 df src ts um).getD i (Val.vs []))) := by
      unfold stdFlags10
      split
      · exact tagMem_tagStep_pres _ _ _ _ i
          (by rw [len_stdFlags8]; exact hn) h8 (by decide) (by decide)
          (by decide) (by decide)
      · exact h8
    -- and the duplicate pass
    unfold stdFlags11
    split
    · exact tagMem_tagStep_pres _ _ _ _ i
        (by rw [len_stdFlags10]; exact hn) h10 (by decide) (by decide)
        (by decide) (by decide)
    · exact h10

/-- Witness for the amended C1 at a one-row table whose `Number` cell is
unparseable. -/
theorem number_coercion_amended_witness :
    (stdNumRaw [(nmNumber, [(r"abc").toList])] [] [] []).length =
      rawRows [(nmNumber, [(r"abc").toList])] ∧
    getCol (standardize_dataset [(nmNumber, [(r"abc").toList])] [] [] []).1 nmNumber =
      some ((stdNumRaw [(nmNumber, [(r"abc").toList])] [] [] []).map
        (fun v => Val.vq ((to_float (valToStr v)).getD 0))) ∧
    ∀ fl, getCol (standardize_dataset [(nmNumber, [(r"abc").toList])] [] [] []).1
        nmFlags = some fl →
      ∀ i, i < rawRows [(nmNumber, [(r"abc").toList])] →
        (to_float (valToStr ((stdNumRaw [(nmNumber, [(r"abc").toList])] [] [] []).getD
          i (Val.vs [])))).isNone = true →
        tagMem tagBadNumber (valToStr (fl.getD i (Val.vs []))) :=
  number_coercion_amended [(nmNumber, [(r"abc").toList])] [] [] []
    ⟨by decide, by decide⟩ (by decide) (by decide)

/-- C1 counterexample: the raw value `-5` coerces to the negative float
`-5.0` (the sanitizing regex keeps the minus sign), so the claimed
invariant that `Number` is always `≥ 0` is false. -/
theorem number_nonneg_cex :
    getCol (standardize_dataset [(nmNumber, [(r"-5").toList])] [] [] []).1 nmNumber =
      some [Val.vq (mkRat (-5) 1)] ∧
    ¬ (0 : ℚ) ≤ mkRat (-5) 1 := by
  decide

theorem lookupLower_mem (cols : List Str) (key src : Str)
    (h : lookupLower cols key = some src) : src ∈ cols := by
  unfold lookupLower at h
  cases hf : (cols.reverse.find? (fun c => strip (lowerStr c) == key)) with
  | none => rw [hf] at h; cases h
  | some v =>
    rw [hf] at h
    cases h
    exact List.mem_reverse.mp (List.mem_of_find?_eq_some hf)

theorem aliasLookup_mem (canon : Str) (cols : List Str) (src : Str)
    (h : aliasLookup canon cols = some src) : src ∈ cols := by
  unfold aliasLookup at h
  cases hf : (ALIASES.find? (fun kv => kv.2 == canon && (lookupLower cols kv.1).isSome)) with
  | none => rw [hf] at h; cases h
  | some kv =>
    rw [hf] at h
    exact lookupLower_mem cols kv.1 src h

theorem any_beq_self_of_mem (cols : List Str) (src : Str) (h : src ∈ cols) :
    (cols.any (fun c => c == src)) = true :=
  List.any_eq_true.mpr ⟨src, h, by simp⟩

theorem autoMap_values_mem (cols : List Str) :
    ∀ kv ∈ autoMap cols, (cols.any (fun c => c == kv.2)) = true := by
  intro kv hkv
  unfold autoMap at hkv
  rcases List.mem_filterMap.mp hkv with ⟨canon, _, hf⟩
  by_cases hex : (cols.any (fun c => c == canon)) = true
  · rw [if_pos hex] at hf
    cases hf
    exact hex
  · rw [if_neg hex] at hf
    cases hal : aliasLookup canon cols with
    | some src =>
      rw [hal] at hf
      cases hf
      exact any_beq_self_of_mem cols src (aliasLookup_mem canon cols src hal)
    | none =>
      rw [hal] at hf
      cases hl : lookupLower cols (lowerStr canon) with
      | none => rw [hl] at hf; cases hf
      | some src =>
        rw [hl] at hf
        cases hf
        exact any_beq_self_of_mem cols src (lookupLower_mem cols _ src hl)

theorem setAssoc_values_mem (cols : List Str) (m : List (Str × Str)) (k v : Str)
    (hm : ∀ kv ∈ m, (cols.any (fun c => c == kv.2)) = true)
    (hv : (cols.any (fun c => c == v)) = true) :
    ∀ kv ∈ setAssoc m k v, (cols.any (fun c => c == kv.2)) = true := by
  intro kv hkv
  unfold setAssoc at hkv
  by_cases hb : (m.any (fun p => p.1 == k)) = true
  · rw [if_pos hb] at hkv
    rcases List.mem_map.mp hkv with ⟨q, hq, rfl⟩
    by_cases hqk : (q.1 == k) = true
    · rw [if_pos hqk]
      exact hv
    · rw [if_neg hqk]
      exact hm q hq
  · rw [if_neg hb] at hkv
    rcases List.mem_append.mp hkv with h | h
    · exact hm kv h
    · simp only [List.mem_singleton] at h
      subst h
      exact hv

theorem resolveMapping_values_mem (cols : List Str) (user : List (Str × Str)) :
    ∀ kv ∈ resolveMapping cols user, (cols.any (fun c => c == kv.2)) = true := by
  unfold resolveMapping
  suffices h : ∀ (acc : List (Str × Str)),
      (∀ kv ∈ acc, (cols.any (fun c => c == kv.2)) = true) →
      ∀ kv ∈ user.foldl (fun m kv =>
        if REQUIRED_COLUMNS.any (fun c => c == kv.1) && ¬ kv.2 = [] &&
            cols.any (fun c => c == kv.2) then
          setAssoc m kv.1 kv.2
        else m) acc, (cols.any (fun c => c == kv.2)) = true by
    exact h (autoMap cols) (autoMap_values_mem cols)
  induction user with
  | nil => intro acc hacc kv hkv; exact hacc kv hkv
  | cons u rest ih =>
    intro acc hacc kv hkv
    simp only [List.foldl_cons] at hkv
    by_cases hg : (REQUIRED_COLUMNS.any (fun c => c == u.1) && ¬ u.2 = [] &&
        cols.any (fun c => c == u.2)) = true
    · rw [if_pos hg] at hkv
      refine ih _ (setAssoc_values_mem cols acc u.1 u.2 hacc ?_) kv hkv
      rw [Bool.and_eq_true, Bool.and_eq_true] at hg
      exact hg.2
    · rw [if_neg hg] at hkv
      exact ih _ hacc kv hkv

theorem stdMapping_values_mem (df : RawTable) (um : List (Str × Str)) :
    ∀ kv ∈ stdMapping df um, ((stdCols df).any (fun c => c == kv.2)) = true :=
  resolveMapping_values_mem (stdCols df) um

theorem lookupAssoc_mem_pair (m : List (Str × Str)) (c s : Str)
    (h : lookupAssoc m c = some s) : ∃ p ∈ m, p.2 = s := by
  unfold lookupAssoc at h
  cases hf : (m.find? (fun p => p.1 == c)) with
  | none => rw [hf] at h; cases h
  | some v =>
    rw [hf] at h
    cases h
    exact ⟨v, List.mem_of_find?_eq_some hf, rfl⟩

theorem mappedCount_eq (df : RawTable) (um : List (Str × Str)) :
    REQUIRED_COLUMNS.countP (fun c =>
      (lookupAssoc (stdMapping df um) c).elim false
        (fun s => (stdCols df).any (fun c2 => c2 == s))) =
    REQUIRED_COLUMNS.countP (fun c => (lookupAssoc (stdMapping df um) c).isSome) := by
  apply List.countP_congr
  intro c _
  cases h : lookupAssoc (stdMapping df um) c with
  | none => rfl
  | some s =>
    rcases lookupAssoc_mem_pair _ c s h with ⟨p, hp, hps⟩
    have := stdMapping_values_mem df um p hp
    rw [hps] at this
    simp [Option.elim, this]

theorem int_floor_nat_div (a b : ℕ) :
    ⌊(a : ℚ) / (b : ℚ)⌋ = ((a / b : ℕ) : ℤ) := by
  rcases Nat.eq_zero_or_pos b with rfl | hb
  · simp
  · have hbq : (0 : ℚ) < (b : ℚ) := by exact_mod_cast hb
    rw [Int.floor_eq_iff]
    constructor
    · rw [le_div_iff hbq]
      exact_mod_cast Nat.div_mul_le_self a b
    · rw [div_lt_iff hbq]
      have hlt : a < (a / b + 1) * b := by
        have h1 := Nat.div_add_mod a b
        have h2 := Nat.mod_lt a hb
        calc a = b * (a / b) + a % b := h1.symm
          _ < b * (a / b) + b := by omega
          _ = (a / b + 1) * b := by ring
      exact_mod_cast hlt

/-- C4: for every well-formed input, the confidence score equals
`floor(60·mapped/11) + 20·[no required missing] + floor(10·date_ok
fraction) + floor(10·positive-Number fraction)` capped at 100 (the
fractions over the standardized table's rows), and it always lies in
`[0, 100]` (it is a natural number, so non-negativity is inherent). -/
theorem confidence_formula (df : RawTable) (src ts : Str) (um : List (Str × Str))
    (hwf : WfRaw df) :
    (((standardize_dataset df src ts um).2.confidence : ℤ) =
      min 100
        (⌊(60 * ((REQUIRED_COLUMNS.countP (fun c =>
            (lookupAssoc (standardize_dataset df src ts um).2.mapping_used c).isSome)
              : ℕ) : ℚ)) / 11⌋ +
         (if (standardize_dataset df src ts um).2.missing_required = [] then 20 else 0) +
         ⌊(10 * ((((getCol (standardize_dataset df src ts um).1 nmDt).getD []).countP
              isParsedDate : ℕ) : ℚ)) /
            ((((getCol (standardize_dataset df src ts um).1 nmNumber).getD []).length
              : ℕ) : ℚ)⌋ +
         ⌊(10 * ((((getCol (standardize_dataset df src ts um).1 nmNumber).getD []).countP
              isPosNumber : ℕ) : ℚ)) /
            ((((getCol (standardize_dataset df src ts um).1 nmNumber).getD []).length
              : ℕ) : ℚ)⌋)) ∧
    (standardize_dataset df src ts um).2.confidence ≤ 100 := by
  by_cases hcond : (df = [] ∨ rawRows df = 0)
  · unfold standardize_dataset
    rw [if_pos hcond]
    constructor
    · show ((0 : ℕ) : ℤ) = _
      have h1 : REQUIRED_COLUMNS.countP
          (fun c => (lookupAssoc ([] : List (Str × Str)) c).isSome) = 0 := by decide
      have h2 : getCol emptyStdTable nmDt = none := by decide
      have h3 : getCol emptyStdTable nmNumber = some [] := by decide
      show _ = min 100
        (⌊(60 * ((REQUIRED_COLUMNS.countP (fun c =>
            (lookupAssoc ([] : List (Str × Str)) c).isSome) : ℕ) : ℚ)) / 11⌋ +
         (if MIN_IMPORT_COLUMNS = [] then 20 else 0) +
         ⌊(10 * ((((getCol emptyStdTable nmDt).getD []).countP isParsedDate : ℕ) : ℚ)) /
            ((((getCol emptyStdTable nmNumber).getD []).length : ℕ) : ℚ)⌋ +
         ⌊(10 * ((((getCol emptyStdTable nmNumber).getD []).countP isPosNumber : ℕ) : ℚ)) /
            ((((getCol emptyStdTable nmNumber).getD []).length : ℕ) : ℚ)⌋)
      rw [h1, h2, h3]
      rw [if_neg (by decide)]
      norm_num
    · show (0 : ℕ) ≤ 100
      norm_num
  · unfold standardize_dataset
    rw [if_neg hcond]
    constructor
    · show ((stdConfidence df src ts um : ℕ) : ℤ) = _
      show _ = min 100
        (⌊(60 * ((REQUIRED_COLUMNS.countP (fun c =>
            (lookupAssoc (stdMapping df um) c).isSome) : ℕ) : ℚ)) / 11⌋ +
         (if stdMissing df src ts um = [] then 20 else 0) +
         ⌊(10 * ((((getCol (stdOut11 df src ts um) nmDt).getD []).countP
              isParsedDate : ℕ) : ℚ)) /
            ((((getCol (stdOut11 df src ts um) nmNumber).getD []).length : ℕ) : ℚ)⌋ +
         ⌊(10 * ((((getCol (stdOut11 df src ts um) nmNumber).getD []).countP
              isPosNumber : ℕ) : ℚ)) /
            ((((getCol (stdOut11 df src ts um) nmNumber).getD []).length : ℕ) : ℚ)⌋)
      rw [getCol_stdOut11_dt, getCol_stdOut11_number]
      rw [Option.getD_some, Option.getD_some]
      rw [List.countP_map, List.countP_map, List.length_map]
      have hdtc : (isParsedDate ∘ Val.vdt) = (fun o : Option YMD => o.isSome) := by
        funext o
        cases o <;> rfl
      have hnkc : (isPosNumber ∘ (fun o : Option ℚ => Val.vq (o.getD 0))) =
          (fun o : Option ℚ => decide (0 < o.getD 0)) := by
        funext o
        rfl
      rw [hdtc, hnkc, len_stdCoerced df src ts um hwf, ← mappedCount_eq df um]
      unfold stdConfidence
      have e1 := int_floor_nat_div
        (60 * REQUIRED_COLUMNS.countP (fun c =>
          (lookupAssoc (stdMapping df um) c).elim false
            (fun s => (stdCols df).any (fun c2 => c2 == s)))) 11
      have e2 := int_floor_nat_div
        (10 * (stdParsed df src ts um).countP (fun o => o.isSome)) (stdN df)
      have e3 := int_floor_nat_div
        (10 * (stdCoerced df src ts um).countP (fun o => decide (0 < o.getD 0)))
        (stdN df)
      push_cast at e1 e2 e3
      rw [Nat.cast_min]
      by_cases hmiss : stdMissing df src ts um = []
      · rw [if_pos hmiss, if_pos hmiss]
        push_cast
        rw [← e1, ← e2, ← e3]
      · rw [if_neg hmiss, if_neg hmiss]
        push_cast
        rw [← e1, ← e2, ← e3]
    · show stdConfidence df src ts um ≤ 100
      unfold stdConfidence
      exact min_le_left _ _

/-- Witness for C4 at a one-column table. -/
theorem confidence_formula_witness :
    (((standardize_dataset [(nmNumber, [(r"7").toList])] [] [] []).2.confidence : ℤ) =
      min 100
        (⌊(60 * ((REQUIRED_COLUMNS.countP (fun c =>
            (lookupAssoc (standardize_dataset [(nmNumber, [(r"7").toList])] [] [] []).2.mapping_used
              c).isSome) : ℕ) : ℚ)) / 11⌋ +
         (if (standardize_dataset [(nmNumber, [(r"7").toList])] [] [] []).2.missing_required = []
          then 20 else 0) +
         ⌊(10 * ((((getCol (standardize_dataset [(nmNumber, [(r"7").toList])] [] [] []).1
              nmDt).getD []).countP isParsedDate : ℕ) : ℚ)) /
            ((((getCol (standardize_dataset [(nmNumber, [(r"7").toList])] [] [] []).1
              nmNumber).getD []).length : ℕ) : ℚ)⌋ +
         ⌊(10 * ((((getCol (standardize_dataset [(nmNumber, [(r"7").toList])] [] [] []).1
              nmNumber).getD []).countP isPosNumber : ℕ) : ℚ)) /
            ((((getCol (standardize_dataset [(nmNumber, [(r"7").toList])] [] [] []).1
              nmNumber).getD []).length : ℕ) : ℚ)⌋)) ∧
    (standardize_dataset [(nmNumber, [(r"7").toList])] [] [] []).2.confidence ≤ 100 :=
  confidence_formula [(nmNumber, [(r"7").toList])] [] [] [] ⟨by decide, by decide⟩

theorem mem_updCol_of_ne (t : Table) (name : Str) (g : List Val → List Val)
    (q : Str × List Val) (hq : q ∈ t) (h : ¬ q.1 = name) : q ∈ updCol t name g := by
  unfold updCol
  have hfix : (fun p : Str × List Val =>
      if p.1 == name then (p.1, g p.2) else p) q = q := by
    simp [h]
  rw [← hfix]
  exact List.mem_map_of_mem _ hq

theorem mem_setCol_of_ne (t : Table) (name : Str) (col : List Val)
    (q : Str × List Val) (hq : q ∈ t) (h : ¬ q.1 = name) : q ∈ setCol t name col := by
  rw [setCol_eq]
  cases hb : hasCol t name with
  | true =>
    simp only [if_true]
    exact mem_updCol_of_ne t name _ q hq h
  | false =>
    simp only [Bool.false_eq_true, if_false]
    exact List.mem_append_left _ hq

theorem mem_mapCol_of_ne (t : Table) (name : Str) (f : Val → Val)
    (q : Str × List Val) (hq : q ∈ t) (h : ¬ q.1 = name) : q ∈ mapCol t name f := by
  rw [mapCol_eq_updCol]
  exact mem_updCol_of_ne t name _ q hq h

theorem mem_mapColIdx_of_ne (t : Table) (name : Str) (f : ℕ → Val → Val)
    (q : Str × List Val) (hq : q ∈ t) (h : ¬ q.1 = name) : q ∈ mapColIdx t name f := by
  rw [mapColIdx_eq_updCol]
  exact mem_updCol_of_ne t name _ q hq h

theorem mem_tagRows_of_ne (t : Table) (mask : List Bool) (tag : Str)
    (q : Str × List Val) (hq : q ∈ t) (h : ¬ q.1 = nmFlags) : q ∈ tagRows t mask tag :=
  mem_mapColIdx_of_ne t nmFlags _ q hq h

theorem mem_foldl_setCol_of_ne (l : RawTable) (t : Table) (q : Str × List Val)
    (hq : q ∈ t) (h : ∀ r ∈ l, ¬ q.1 = r.1) :
    q ∈ l.foldl (fun t p => setCol t p.1 (p.2.map Val.vs)) t := by
  induction l generalizing t with
  | nil => exact hq
  | cons p rest ih =>
    simp only [List.foldl_cons]
    exact ih _ (mem_setCol_of_ne t p.1 _ q hq (h p (List.mem_cons_self p rest)))
      (fun r hr => h r (List.mem_cons_of_mem p hr))

theorem mem_foldl_mapCol_of_ne (fields : List Str) (t : Table) (f : Val → Val)
    (q : Str × List Val) (hq : q ∈ t) (h : ∀ c ∈ fields, ¬ q.1 = c) :
    q ∈ fields.foldl (fun t c => mapCol t c f) t := by
  induction fields generalizing t with
  | nil => exact hq
  | cons c rest ih =>
    simp only [List.foldl_cons]
    exact ih _ (mem_mapCol_of_ne t c f q hq (h c (List.mem_cons_self c rest)))
      (fun d hd => h d (List.mem_cons_of_mem c hd))

theorem hasCol_setCol_false (t : Table) (name : Str) (col : List Val) (nm : Str)
    (h : hasCol t nm = false) (hne : ¬ nm = name) :
    hasCol (setCol t name col) nm = false := by
  rw [hasCol_eq_names, names_setCol]
  rw [hasCol_eq_names] at h
  cases hb : hasCol t name with
  | true => simpa using h
  | false =>
    simp only [Bool.false_eq_true, if_false, List.any_append]
    rw [h]
    simp only [Bool.false_or, List.any_cons, List.any_nil, Bool.or_false]
    exact beq_eq_false_iff_ne.mpr (fun e => hne e.symm)

theorem mem_foldl_setCol_intro (l : RawTable) (t : Table) (q : Str × List Str)
    (hq : q ∈ l) (hnodup : (l.map (fun p => p.1)).Nodup)
    (hact : hasCol t q.1 = false) :
    (q.1, q.2.map Val.vs) ∈ l.foldl (fun t p => setCol t p.1 (p.2.map Val.vs)) t := by
  induction l generalizing t with
  | nil => cases hq
  | cons p rest ih =>
    simp only [List.map_cons, List.nodup_cons] at hnodup
    simp only [List.foldl_cons]
    rcases List.mem_cons.mp hq with rfl | hq'
    · have happ : (q.1, q.2.map Val.vs) ∈ setCol t q.1 (q.2.map Val.vs) := by
        rw [setCol_eq, hact]
        simp only [Bool.false_eq_true, if_false]
        exact List.mem_append_right _ (by simp)
      refine mem_foldl_setCol_of_ne rest _ _ happ ?_
      intro r hr e
      exact hnodup.1 (e ▸ List.mem_map_of_mem (fun p => p.1) hr)
    · have hne : ¬ q.1 = p.1 := by
        intro e
        exact hnodup.1 (e ▸ List.mem_map_of_mem (fun p => p.1) hq')
      exact ih _ hq' hnodup.2 (hasCol_setCol_false t p.1 _ q.1 hact hne)

theorem mem_drop11 (t : Table) (q : Str × List Val) (hq : q ∈ t)
    (htake : (names t).take 11 = REQUIRED_COLUMNS)
    (hnr : ¬ q.1 ∈ REQUIRED_COLUMNS) : q ∈ t.drop 11 := by
  have hsplit : t = t.take 11 ++ t.drop 11 := (List.take_append_drop _ _).symm
  rw [hsplit] at hq
  rcases List.mem_append.mp hq with h | h
  · exfalso
    apply hnr
    rw [← htake]
    unfold names
    rw [← List.map_take]
    exact List.mem_map_of_mem (fun p => p.1) h
  · exact h

theorem hasCol_stdOut0_false (df : RawTable) (um : List (Str × Str)) (nm : Str)
    (h : ¬ nm ∈ REQUIRED_COLUMNS) : hasCol (stdOut0 df um) nm = false := by
  rw [hasCol_eq_names, names_stdOut0]
  rw [Bool.eq_false_iff]
  intro hany
  rcases List.any_eq_true.mp hany with ⟨c, hc, hbeq⟩
  exact h ((eq_of_beq hbeq) ▸ hc)

/-- C8 (amended): every source column not consumed by the mapping whose
name is not one of the pipeline's own column names (canonical fields,
metadata, derived date) appears unmodified in the standardized output,
after the eleven canonical columns which always come first.  (An
unconsumed column sharing a reserved name is instead overwritten in
place — see the counterexample.) -/
theorem extras_preserved_amended (df : RawTable) (src ts : Str)
    (um : List (Str × Str)) (hwf : WfRaw df) (h1 : ¬ df = [])
    (h2 : ¬ rawRows df = 0) (q : Str × List Str) (hq : q ∈ stdDff df)
    (hcons : (((stdMapping df um).map (fun p => p.2)).any (fun c => c == q.1)) = false)
    (hres : ¬ q.1 ∈ RESERVED_COLUMNS) :
    ((names (standardize_dataset df src ts um).1).take 11 = REQUIRED_COLUMNS) ∧
    (q.1, q.2.map Val.vs) ∈ (standardize_dataset df src ts um).1.drop 11 := by
  have hcond : ¬ (df = [] ∨ rawRows df = 0) := by
    intro hor
    rcases hor with h | h
    · exact h1 h
    · exact h2 h
  unfold standardize_dataset
  rw [if_neg hcond]
  have hreq : ¬ q.1 ∈ REQUIRED_COLUMNS := by
    intro hmem
    exact hres (List.mem_append_left _ hmem)
  have hmeta : ∀ nm ∈ ([nmRowId, nmSource, nmImportTs, nmFlags, nmDt] : List Str),
      ¬ q.1 = nm := by
    intro nm hnm e
    exact hres (List.mem_append_right _ (e ▸ hnm))
  refine ⟨(NamesOk_stdOut11 df src ts um).2, ?_⟩
  -- q is one of the extras
  have hextra : q ∈ stdExtras df um := by
    unfold stdExtras
    rw [List.mem_filter]
    refine ⟨hq, ?_⟩
    simp [hcons]
  -- extras column names are duplicate-free
  have hnodup : ((stdExtras df um).map (fun p => p.1)).Nodup := by
    have hdff : ((stdDff df).map (fun p => p.1)).Nodup := by
      unfold stdDff
      rw [List.map_map]
      exact hwf.2
    exact hdff.sublist (List.Sublist.map _ (List.filter_sublist _))
  -- introduced while the extras are assigned
  have h1m : (q.1, q.2.map Val.vs) ∈ stdOut1 df um :=
    mem_foldl_setCol_intro (stdExtras df um) (stdOut0 df um) q hextra hnodup
      (hasCol_stdOut0_false df um q.1 hreq)
  -- preserved by the metadata assignments
  have h5m : (q.1, q.2.map Val.vs) ∈ stdOut5 df src ts um := by
    unfold stdOut5
    refine mem_setCol_of_ne _ _ _ _ (mem_setCol_of_ne _ _ _ _ (mem_setCol_of_ne _ _ _ _
      (mem_setCol_of_ne _ _ _ _ h1m ?_) ?_) ?_) ?_ <;>
      exact hmeta _ (by simp)
  -- preserved by string cleaning
  have h6m : (q.1, q.2.map Val.vs) ∈ stdOut6 df src ts um := by
    unfold stdOut6
    refine mem_foldl_mapCol_of_ne _ _ _ _ h5m ?_
    intro c hc e
    have hsub : ∀ c ∈ STRING_FIELDS, c ∈ RESERVED_COLUMNS := by decide
    exact hres (e ▸ hsub c hc)
  -- preserved by Number coercion and tagging
  have h8m : (q.1, q.2.map Val.vs) ∈ stdOut8 df src ts um := by
    rw [stdOut8_eq]
    have hsetm := mem_setCol_of_ne _ nmNumber
      ((stdCoerced df src ts um).map (fun o => Val.vq (o.getD 0))) _ h6m
      (by intro e; exact hres (e ▸ (by decide : nmNumber ∈ RESERVED_COLUMNS)))
    split
    · exact mem_tagRows_of_ne _ _ _ _ hsetm (hmeta nmFlags (by simp))
    · exact hsetm
  -- preserved by date parsing and tagging
  have h10m : (q.1, q.2.map Val.vs) ∈ stdOut10 df src ts um := by
    rw [stdOut10_eq]
    have hsetm := mem_setCol_of_ne _ nmDt ((stdParsed df src ts um).map Val.vdt) _ h8m
      (hmeta nmDt (by simp))
    split
    · exact mem_tagRows_of_ne _ _ _ _ hsetm (hmeta nmFlags (by simp))
    · exact hsetm
  -- preserved by duplicate tagging
  have h11m : (q.1, q.2.map Val.vs) ∈ stdOut11 df src ts um := by
    unfold stdOut11
    split
    · exact mem_tagRows_of_ne _ _ _ _ h10m (hmeta nmFlags (by simp))
    · exact h10m
  exact mem_drop11 _ _ h11m (NamesOk_stdOut11 df src ts um).2 hreq

/-- Witness for the amended C8: an `extra1` column alongside a consumed
`SupplierID` column survives, unmodified, after the canonical columns. -/
theorem extras_preserved_amended_witness :
    ((names (standardize_dataset
        [((r"SupplierID").toList, [(r"s").toList]),
         ((r"extra1").toList, [(r"x").toList])] [] [] []).1).take 11 =
      REQUIRED_COLUMNS) ∧
    ((r"extra1").toList, [(r"x").toList].map Val.vs) ∈
      (standardize_dataset
        [((r"SupplierID").toList, [(r"s").toList]),
         ((r"extra1").toList, [(r"x").toList])] [] [] []).1.drop 11 :=
  extras_preserved_amended
    [((r"SupplierID").toList, [(r"s").toList]),
     ((r"extra1").toList, [(r"x").toList])] [] [] []
    ⟨by decide, by decide⟩ (by decide) (by decide)
    ((r"extra1").toList, [(r"x").toList]) (by decide) (by decide) (by decide)

/-- C8 counterexample: with `user_mapping = {Number: qty}`, the source
column literally named `Number` is not consumed, but instead of being
appended after the canonical columns it overwrites the canonical
`Number` column in place — the mapped `qty` data (5) is dropped, the
final `Number` value is the coerced extra (7.0), no second
`Number`-named column exists, and nothing named `Number` appears after
the first eleven columns. -/
theorem extras_collision_cex :
    ¬ (nmNumber, [Val.vs ['7']]) ∈
        (standardize_dataset [(nmNumber, [['7']]), ((r"qty").toList, [['5']])]
          [] [] [(nmNumber, (r"qty").toList)]).1.drop 11 ∧
    ((names (standardize_dataset [(nmNumber, [['7']]), ((r"qty").toList, [['5']])]
        [] [] [(nmNumber, (r"qty").toList)]).1).countP (fun nm => nm == nmNumber)) = 1 ∧
    getCol (standardize_dataset [(nmNumber, [['7']]), ((r"qty").toList, [['5']])]
        [] [] [(nmNumber, (r"qty").toList)]).1 nmNumber =
      some [Val.vq (mkRat 7 1)] := by
  refine ⟨by decide, by decide, by decide⟩

/-- C2 (amended): with a staged report present, Import is enabled iff
the report's `missing_required` is empty; firing it with a staged
standardized table replaces the Active Dataset wholesale by that table —
but the staged state is NOT cleared (all six staged entries survive;
only Cancel clears them, and Cancel leaves the active dataset alone). -/
theorem dataset_import_amended (st : StageState) (rep : Report)
    (hrep : st.stagedReport = some rep) :
    (can_import st = true ↔ rep.missing_required = []) ∧
    (∀ std : Table, st.stagedStd = some std → rep.missing_required = [] →
      (do_import st).active = some std ∧
      (do_import st).stagedRaw = st.stagedRaw ∧
      (do_import st).stagedStd = st.stagedStd ∧
      (do_import st).stagedReport = st.stagedReport ∧
      (do_import st).stagedWarnings = st.stagedWarnings ∧
      (do_import st).stagedFmt = st.stagedFmt ∧
      (do_import st).stagedUserMapping = st.stagedUserMapping) ∧
    ((do_cancel st).active = st.active ∧
      (do_cancel st).stagedRaw = none ∧ (do_cancel st).stagedStd = none ∧
      (do_cancel st).stagedReport = none ∧ (do_cancel st).stagedWarnings = none ∧
      (do_cancel st).stagedFmt = none ∧ (do_cancel st).stagedUserMapping = none) := by
  have hci : can_import st = true ↔ rep.missing_required = [] := by
    unfold can_import
    rw [hrep]
    simp [List.isEmpty_iff]
  refine ⟨hci, ?_, by simp [do_cancel]⟩
  intro std hstd hmiss
  unfold do_import
  rw [if_pos (hci.mpr hmiss), hstd]
  simp

/-- Witness for the amended C2 at a concrete importable state. -/
theorem dataset_import_amended_witness :
    (can_import stWitness = true ↔ baseReport.missing_required = []) ∧
    (∀ std : Table, stWitness.stagedStd = some std →
      baseReport.missing_required = [] →
      (do_import stWitness).active = some std ∧
      (do_import stWitness).stagedRaw = stWitness.stagedRaw ∧
      (do_import stWitness).stagedStd = stWitness.stagedStd ∧
      (do_import stWitness).stagedReport = stWitness.stagedReport ∧
      (do_import stWitness).stagedWarnings = stWitness.stagedWarnings ∧
      (do_import stWitness).stagedFmt = stWitness.stagedFmt ∧
      (do_import stWitness).stagedUserMapping = stWitness.stagedUserMapping) ∧
    ((do_cancel stWitness).active = stWitness.active ∧
      (do_cancel stWitness).stagedRaw = none ∧
      (do_cancel stWitness).stagedStd = none ∧
      (do_cancel stWitness).stagedReport = none ∧
      (do_cancel stWitness).stagedWarnings = none ∧
      (do_cancel stWitness).stagedFmt = none ∧
      (do_cancel stWitness).stagedUserMapping = none) :=
  dataset_import_amended stWitness baseReport (by decide)

/-- C2 counterexample: at an importable staged state, firing Import
leaves the staged standardized table (and report and raw table) in
place — the staged state is not cleared as claimed. -/
theorem dataset_import_clears_cex :
    can_import stWitness = true ∧
    ¬ (do_import stWitness).stagedStd = none ∧
    ¬ (do_import stWitness).stagedReport = none ∧
    ¬ (do_import stWitness).stagedRaw = none := by
  decide

end App


